import Mathlib

/-!
# Namespace access facade, WAL record model and computed-value executor

A shallow embedding of
* `core/namespace/namespace.h` (class `Namespace`: the invalidation-retry wrapper
  `nsFuncWrapper`, `atomicLoadMainNs`, the two `Rename` overloads, `BackgroundRoutine`,
  `OnConfigUpdated`, and `awaitMainNs` among concurrent callers and cloners),
* `replicator/walrecord.h` (`WALRecType`, the `WALRecord` value constructors and the
  payload union),
* `core/selectfunc/functionexecutor.cc` (`FunctionExecutor::Execute`),
* `estl/contexted_cond_var.h` (the two `wait` overloads),
* `core/namespacedef.h` (`EnumNamespacesOpts`, `NamespaceDef`),
* `cmd/reindexer_tool/commandsexecutor.cc` (`processImpl`),
* `client/raftclient.cc` and `client/synccororeindexer.cc` (constructors, destructor and
  move assignment of the client wrappers),
together with the properties proved about them.
-/

set_option autoImplicit false

namespace reindexer

/-! ## Errors -/

/-- Error codes that the sources name. `core/type_consts.h` is not part of the sources at
hand, so only the names are used, never the numeric values; `errOther` stands for every
code the sources do not name. -/
inductive ErrorCode where
  | errOK
  | errParams
  | errParseJson
  | errNotValid
  | errCanceled
  | errNamespaceInvalidated
  | errOther (n : Nat)
deriving DecidableEq, Repr

/-- The class `Error`: a code and a message (`e.code()`, `e.what()`). -/
structure Error where
  code : ErrorCode
  what : String
deriving DecidableEq, Repr

/-- Modelled from the spec: MutationContext (`RdxContext`, declared in
`core/rdxcontext.h`, which is not part of the sources at hand), "immutable value object
carrying {deadline, cancellation-flag, activity-tracking-handle}". -/
structure RdxContext where
  deadline : Option Nat := none
  canceled : Bool := false
  activity : Option Nat := none
deriving DecidableEq, Repr

/-! ## The facade `Namespace` (namespace.h) -/

/-- Identity of a `NamespaceImpl` object (what a `NamespaceImpl::Ptr` points to). -/
abbrev NamespaceImplPtr := Nat

/-- Address of a facade object (what `this` and a `Namespace::Ptr` point to). -/
abbrev NamespacePtr := Nat

/-- The data members of `class Namespace` (namespace.h:173-184). The two locks
`clonerMtx_` and `nsPtrSpinlock_` carry no data; the three statistics counters are kept as
opaque numbers. -/
structure Namespace where
  ns_ : NamespaceImplPtr
  nsCopy_ : Option NamespaceImplPtr := none
  hasCopy_ : Bool := false
  startCopyPolicyTxSize_ : Int := 0
  copyPolicyMultiplier_ : Int := 0
  txSizeToAlwaysCopy_ : Int := 0
  txStatsCounter_ : Nat := 0
  commitStatsCounter_ : Nat := 0
  copyStatsCounter_ : Nat := 0
deriving DecidableEq, Repr

/-- Everything the collaborators can read and write: the facade objects by address and the
state `ι` of the implementation objects (opaque). -/
structure Sys (ι : Type) where
  facades : NamespacePtr → Namespace
  impls : ι

/-- A call made on a collaborator, as recorded by the model. -/
inductive Call where
  | impl (method : String) (ns : NamespaceImplPtr)
  | doRename (dst : Option NamespacePtr) (newName storagePath : String) (ctx : RdxContext)
deriving DecidableEq, Repr

/-- The system state together with the record of collaborator calls made so far. -/
structure World (ι : Type) where
  sys : Sys ι
  calls : List Call

/-- A member function of `NamespaceImpl` with its arguments already bound, as
`nsFuncWrapper` receives it: it runs on the object `ns`, either returns a value or throws
an `Error`, and may change the system state (other threads included). -/
structure ImplFn (ι α : Type) where
  name : String
  run : NamespaceImplPtr → Sys ι → Except Error α × Sys ι

/-- Embedding of `Namespace::atomicLoadMainNs` (namespace.h:164-167): the published
pointer `ns_`, read under the spin-lock. -/
def atomicLoadMainNs {ι : Type} (this : NamespacePtr) (s : Sys ι) : NamespaceImplPtr :=
  (s.facades this).ns_

/-- One pass through the `try` block of `nsFuncWrapper` (namespace.h:150-151): load the
published pointer, call `fn` on it. -/
def attempt {ι α : Type} (fn : ImplFn ι α) (this : NamespacePtr) (w : World ι) :
    Except Error α × World ι :=
  let ns := atomicLoadMainNs this w.sys
  let r := fn.run ns w.sys
  (r.1, { sys := r.2, calls := w.calls ++ [Call.impl fn.name ns] })

/-- Embedding of `Namespace::nsFuncWrapper` (namespace.h:146-160). The `while (true)`
loop is unrolled at most `fuel` times; `none` means the fuel ran out while every attempt so far was
invalidated. `yield` is `std::this_thread::yield()`: what the other threads do to the
system meanwhile. A thrown `Error` is the `Except.error` result. -/
def nsFuncWrapper {ι α : Type} (fn : ImplFn ι α) (yield : Sys ι → Sys ι)
    (this : NamespacePtr) : Nat → World ι → Option (Except Error α × World ι)
  | 0, _ => none
  | fuel + 1, w =>
    match attempt fn this w with
    | (Except.ok v, w1) => some (Except.ok v, w1)
    | (Except.error e, w1) =>
      if e.code ≠ ErrorCode.errNamespaceInvalidated then
        some (Except.error e, w1)
      else
        nsFuncWrapper fn yield this fuel { w1 with sys := yield w1.sys }

/-- The world in which attempt number `i` (counted from 0) starts, when every earlier
attempt was followed by a yield. -/
def attemptWorld {ι α : Type} (fn : ImplFn ι α) (yield : Sys ι → Sys ι)
    (this : NamespacePtr) : Nat → World ι → World ι
  | 0, w => w
  | i + 1, w =>
    let w1 := (attempt fn this w).2
    attemptWorld fn yield this i { w1 with sys := yield w1.sys }

/-- Outcome and world after attempt number `i`. -/
def attemptResult {ι α : Type} (fn : ImplFn ι α) (yield : Sys ι → Sys ι)
    (this : NamespacePtr) (i : Nat) (w : World ι) : Except Error α × World ι :=
  attempt fn this (attemptWorld fn yield this i w)

/-- An outcome that is an error with code `errNamespaceInvalidated`. -/
def isInvalidated {α : Type} : Except Error α → Bool
  | Except.ok _ => false
  | Except.error e => e.code == ErrorCode.errNamespaceInvalidated

/-- The type of the private `Namespace::doRename` (namespace.h:163), defined in
`namespace.cc`, which is not part of the sources at hand: it is a parameter of the model.
Arguments: `this`, `dst`, `newName`, `storagePath`, `ctx`. -/
abbrev DoRename (ι : Type) :=
  NamespacePtr → Option NamespacePtr → String → String → RdxContext → Sys ι →
    Except Error Unit × Sys ι

/-- The call `doRename(dst, newName, storagePath, ctx)` as the model records it. -/
def callDoRename {ι : Type} (doRename : DoRename ι) (this : NamespacePtr)
    (dst : Option NamespacePtr) (newName storagePath : String) (ctx : RdxContext)
    (w : World ι) : Except Error Unit × World ι :=
  let r := doRename this dst newName storagePath ctx w.sys
  (r.1, { sys := r.2, calls := w.calls ++ [Call.doRename dst newName storagePath ctx] })

/-- Embedding of `Namespace::Rename(Namespace::Ptr dst, storagePath, ctx)`
(namespace.h:101-106). `dst = none` is the null pointer. -/
def Namespace.RenameTo {ι : Type} (doRename : DoRename ι) (this : NamespacePtr)
    (dst : Option NamespacePtr) (storagePath : String) (ctx : RdxContext) (w : World ι) :
    Except Error Unit × World ι :=
  if some this = dst ∨ dst = none then
    (Except.ok (), w)
  else
    callDoRename doRename this dst "" storagePath ctx w

/-- Embedding of `Namespace::Rename(const std::string &newName, storagePath, ctx)`
(namespace.h:107-112). -/
def Namespace.Rename {ι : Type} (doRename : DoRename ι) (this : NamespacePtr)
    (newName storagePath : String) (ctx : RdxContext) (w : World ι) :
    Except Error Unit × World ι :=
  if newName = "" then
    (Except.ok (), w)
  else
    callDoRename doRename this none newName storagePath ctx w

/-! ## WAL records (walrecord.h) -/

/-- The `enum WALRecType` (walrecord.h:15-36). -/
inductive WALRecType where
  | WalEmpty
  | WalReplState
  | WalItemUpdate
  | WalItemModify
  | WalIndexAdd
  | WalIndexDrop
  | WalIndexUpdate
  | WalPutMeta
  | WalUpdateQuery
  | WalNamespaceAdd
  | WalNamespaceDrop
  | WalNamespaceRename
  | WalInitTransaction
  | WalCommitTransaction
  | WalForceSync
  | WalSetSchema
  | WalWALSync
  | WalTagsMatcher
  | WalResetLocalWal
  | WalRawItem
deriving DecidableEq, Repr

/-- The numeric value of each enumerator (walrecord.h:16-35). -/
def WALRecType.code : WALRecType → Nat
  | WalEmpty => 0
  | WalReplState => 1
  | WalItemUpdate => 2
  | WalItemModify => 3
  | WalIndexAdd => 4
  | WalIndexDrop => 5
  | WalIndexUpdate => 6
  | WalPutMeta => 7
  | WalUpdateQuery => 8
  | WalNamespaceAdd => 9
  | WalNamespaceDrop => 10
  | WalNamespaceRename => 11
  | WalInitTransaction => 12
  | WalCommitTransaction => 13
  | WalForceSync => 14
  | WalSetSchema => 15
  | WalWALSync => 16
  | WalTagsMatcher => 17
  | WalResetLocalWal => 18
  | WalRawItem => 19

/-- The enumerator with a given numeric value, if there is one. -/
def WALRecType.ofCode : Nat → Option WALRecType
  | 0 => some WalEmpty
  | 1 => some WalReplState
  | 2 => some WalItemUpdate
  | 3 => some WalItemModify
  | 4 => some WalIndexAdd
  | 5 => some WalIndexDrop
  | 6 => some WalIndexUpdate
  | 7 => some WalPutMeta
  | 8 => some WalUpdateQuery
  | 9 => some WalNamespaceAdd
  | 10 => some WalNamespaceDrop
  | 11 => some WalNamespaceRename
  | 12 => some WalInitTransaction
  | 13 => some WalCommitTransaction
  | 14 => some WalForceSync
  | 15 => some WalSetSchema
  | 16 => some WalWALSync
  | 17 => some WalTagsMatcher
  | 18 => some WalResetLocalWal
  | 19 => some WalRawItem
  | _ => none

/-- One byte, `uint8_t`. -/
abbrev Byte := Fin 256

/-- A `string_view`: the bytes it spans. -/
abbrev string_view := List Byte

/-- The range of `IdType` and `int`, which are 32-bit signed integers. -/
def isInt32 (i : Int) : Prop := -2147483648 ≤ i ∧ i < 2147483648

instance (i : Int) : Decidable (isInt32 i) := by unfold isInt32; infer_instance

/-- The members of the anonymous union of `WALRecord` (walrecord.h:70-86), by name. -/
inductive WALVariant where
  | id
  | data
  | itemModify
  | putMeta
  | rawItem
deriving DecidableEq, Repr

/-- The anonymous union of `WALRecord` (walrecord.h:70-86) with its active member: the
member that was initialised last. -/
inductive WALPayload where
  | id (id : Int)
  | data (data : string_view)
  | itemModify (itemCJson : string_view) (tmVersion : Int) (modifyMode : Int)
  | putMeta (key : string_view) (value : string_view)
  | rawItem (id : Int) (itemCJson : string_view)
deriving DecidableEq, Repr

/-- Which member of the union is active. -/
def WALPayload.variant : WALPayload → WALVariant
  | WALPayload.id _ => WALVariant.id
  | WALPayload.data _ => WALVariant.data
  | WALPayload.itemModify _ _ _ => WALVariant.itemModify
  | WALPayload.putMeta _ _ => WALVariant.putMeta
  | WALPayload.rawItem _ _ => WALVariant.rawItem

/-- Every `int` field of the active member is a 32-bit integer. -/
def WALPayload.inRange : WALPayload → Prop
  | WALPayload.id i => isInt32 i
  | WALPayload.data _ => True
  | WALPayload.itemModify _ tm mm => isInt32 tm ∧ isInt32 mm
  | WALPayload.putMeta _ _ => True
  | WALPayload.rawItem i _ => isInt32 i

/-- The `struct WALRecord` (walrecord.h:55-89): `type`, the union, `inTransaction`. The
member `shared_` is a mutable cache of the packed form that every value constructor leaves
null; it is not part of the record's value and is left out. -/
structure WALRecord where
  type : WALRecType
  payload : WALPayload
  inTransaction : Bool := false
deriving DecidableEq, Repr

/-- Embedding of
`WALRecord(WALRecType _type = WalEmpty, IdType _id = 0, bool inTx = false)`
(walrecord.h:58). -/
def WALRecord.ofId (_type : WALRecType := WALRecType.WalEmpty) (_id : Int := 0)
    (inTx : Bool := false) : WALRecord :=
  { type := _type, payload := WALPayload.id _id, inTransaction := inTx }

/-- Embedding of `WALRecord(WALRecType _type, string_view _data, bool inTx = false)`
(walrecord.h:59). -/
def WALRecord.ofData (_type : WALRecType) (_data : string_view) (inTx : Bool := false) :
    WALRecord :=
  { type := _type, payload := WALPayload.data _data, inTransaction := inTx }

/-- Embedding of `WALRecord(WALRecType _type, IdType _id, string_view _data)`
(walrecord.h:60);
`inTransaction` keeps its default member initialiser `false`. -/
def WALRecord.ofRawItem (_type : WALRecType) (_id : Int) (_data : string_view) : WALRecord :=
  { type := _type, payload := WALPayload.rawItem _id _data, inTransaction := false }

/-- Embedding of `WALRecord(WALRecType _type, string_view key, string_view value)`
(walrecord.h:61);
`inTransaction` keeps its default member initialiser `false`. -/
def WALRecord.ofPutMeta (_type : WALRecType) (key value : string_view) : WALRecord :=
  { type := _type, payload := WALPayload.putMeta key value, inTransaction := false }

/-- Embedding of `WALRecord(WALRecType _type, string_view cjson, int tmVersion,
int modifyMode, bool inTx = false)` (walrecord.h:62-63). -/
def WALRecord.ofItemModify (_type : WALRecType) (cjson : string_view) (tmVersion : Int)
    (modifyMode : Int) (inTx : Bool := false) : WALRecord :=
  { type := _type, payload := WALPayload.itemModify cjson tmVersion modifyMode,
    inTransaction := inTx }

/-- The records that the five value constructors can build (with 32-bit `int`
arguments). -/
inductive WALRecord.Constructible : WALRecord → Prop where
  | ofId (t : WALRecType) (i : Int) (inTx : Bool) (h : isInt32 i) :
      WALRecord.Constructible (WALRecord.ofId t i inTx)
  | ofData (t : WALRecType) (d : string_view) (inTx : Bool) :
      WALRecord.Constructible (WALRecord.ofData t d inTx)
  | ofRawItem (t : WALRecType) (i : Int) (d : string_view) (h : isInt32 i) :
      WALRecord.Constructible (WALRecord.ofRawItem t i d)
  | ofPutMeta (t : WALRecType) (k v : string_view) :
      WALRecord.Constructible (WALRecord.ofPutMeta t k v)
  | ofItemModify (t : WALRecType) (c : string_view) (tm mm : Int) (inTx : Bool)
      (htm : isInt32 tm) (hmm : isInt32 mm) :
      WALRecord.Constructible (WALRecord.ofItemModify t c tm mm inTx)

/-- Modelled from the spec: the payload variant declared for a kind (the kind list of
the data model and the member names of the union): "itemModify for WalItemModify,
putMeta for WalPutMeta, rawItem for WalRawItem, id or data for the others". The code
that reads the union by kind (`walrecord.cc`) is not part of the sources at hand. -/
def variantDeclaredFor : WALRecType → WALVariant → Bool
  | WALRecType.WalItemModify, v => v == WALVariant.itemModify
  | WALRecType.WalPutMeta, v => v == WALVariant.putMeta
  | WALRecType.WalRawItem, v => v == WALVariant.rawItem
  | _, v => v == WALVariant.id || v == WALVariant.data

/-! ### The packed form

`WALRecord::Pack`, `PackedWALRecord::Pack` and the unpacking constructor
`WALRecord(span<uint8_t>)` are declared in walrecord.h and defined in `walrecord.cc`,
which is not part of the sources at hand. -/

/-- Modelled from the spec: a fixed-width numeric field ("numeric fields are
fixed-width ... with no padding between logical fields"): the four bytes of an unsigned
32-bit number, least significant first. -/
def putUInt32 (n : Nat) : List Byte :=
  [Fin.ofNat (n % 256), Fin.ofNat (n / 256 % 256), Fin.ofNat (n / 65536 % 256),
    Fin.ofNat (n / 16777216 % 256)]

/-- Modelled from the spec: reading a fixed-width unsigned 32-bit field; the rest of the
buffer is returned with it. -/
def getUInt32 : List Byte → Option (Nat × List Byte)
  | b0 :: b1 :: b2 :: b3 :: rest =>
    some (b0.val + 256 * b1.val + 65536 * b2.val + 16777216 * b3.val, rest)
  | _ => none

/-- Modelled from the spec: a fixed-width `int` field, as the 32-bit two-complement bit
pattern. -/
def putInt32 (i : Int) : List Byte := putUInt32 (i % 4294967296).toNat

/-- Modelled from the spec: reading a fixed-width `int` field. -/
def getInt32 (bs : List Byte) : Option (Int × List Byte) :=
  match getUInt32 bs with
  | some (n, rest) => some (if n < 2147483648 then (n : Int) else (n : Int) - 4294967296, rest)
  | none => none

/-- Modelled from the spec: the length that prefixes a string field ("string/byte fields
are length-prefixed"). The spec leaves the width of the prefix open; a base-128
variable-length number is used, which can hold every length. -/
def putVarUint (n : Nat) : List Byte :=
  if n < 128 then [Fin.ofNat n] else Fin.ofNat (n % 128 + 128) :: putVarUint (n / 128)
termination_by n
decreasing_by omega

/-- Modelled from the spec: reading the length prefix written by `putVarUint`. -/
def getVarUint : List Byte → Option (Nat × List Byte)
  | [] => none
  | b :: rest =>
    if b.val < 128 then some (b.val, rest)
    else
      match getVarUint rest with
      | some (n, rest1) => some (b.val - 128 + 128 * n, rest1)
      | none => none

/-- Modelled from the spec: a length-prefixed string field. -/
def putVString (s : string_view) : List Byte := putVarUint s.length ++ s

/-- Modelled from the spec: reading a length-prefixed string field. -/
def getVString (bs : List Byte) : Option (string_view × List Byte) :=
  match getVarUint bs with
  | some (n, rest) => if rest.length < n then none else some (rest.take n, rest.drop n)
  | none => none

/-- Modelled from the spec: the fields of the active variant, "variant fields in declared
order, length-prefixed variable-length fields, no inter-field padding". -/
def WALPayload.pack : WALPayload → List Byte
  | WALPayload.id i => putInt32 i
  | WALPayload.data d => putVString d
  | WALPayload.itemModify c tm mm => putVString c ++ (putInt32 tm ++ putInt32 mm)
  | WALPayload.putMeta k v => putVString k ++ putVString v
  | WALPayload.rawItem i c => putInt32 i ++ putVString c

/-- Modelled from the spec: reading the fields of a given variant. -/
def WALPayload.unpack : WALVariant → List Byte → Option WALPayload
  | WALVariant.id, bs =>
    match getInt32 bs with
    | some (i, _) => some (WALPayload.id i)
    | none => none
  | WALVariant.data, bs =>
    match getVString bs with
    | some (d, _) => some (WALPayload.data d)
    | none => none
  | WALVariant.itemModify, bs =>
    match getVString bs with
    | some (c, r1) =>
      match getInt32 r1 with
      | some (tm, r2) =>
        match getInt32 r2 with
        | some (mm, _) => some (WALPayload.itemModify c tm mm)
        | none => none
      | none => none
    | none => none
  | WALVariant.putMeta, bs =>
    match getVString bs with
    | some (k, r1) =>
      match getVString r1 with
      | some (v, _) => some (WALPayload.putMeta k v)
      | none => none
    | none => none
  | WALVariant.rawItem, bs =>
    match getInt32 bs with
    | some (i, r1) =>
      match getVString r1 with
      | some (c, _) => some (WALPayload.rawItem i c)
      | none => none
    | none => none

/-- Modelled from the spec: `WALRecord::Pack(WrSerializer &ser)` (walrecord.h:66), defined
in `walrecord.cc`: "serializes kind, flags, and the active variant's fields into a flat
buffer ... in that stated order". The kind tag and the flags take one byte each; the
in-transaction flag is bit 0 of the flags. The bytes are appended to `ser`. -/
def WALRecord.Pack (rec : WALRecord) (ser : List Byte) : List Byte :=
  ser ++ (Fin.ofNat rec.type.code :: Fin.ofNat (if rec.inTransaction then 1 else 0) ::
    rec.payload.pack)

/-- A `PackedWALRecord` (walrecord.h:91): a vector of bytes. -/
abbrev PackedWALRecord := List Byte

/-- Modelled from the spec: `PackedWALRecord::Pack(const WALRecord &rec)`
(walrecord.h:93), defined in `walrecord.cc`: the buffer becomes the packed form of `rec`. -/
def PackedWALRecord.Pack (rec : WALRecord) : PackedWALRecord := rec.Pack []

/-- Modelled from the spec: the unpacking constructor `WALRecord(span<uint8_t>)`
(walrecord.h:56), defined in `walrecord.cc`. The bytes carry the kind and the flags but no
mark of the variant, so the variant is the one declared for the kind ("exactly one payload
variant is active per kind"); the table `declared` of the kinds is a parameter. -/
def WALRecord.ofPacked (declared : WALRecType → WALVariant) : List Byte → Option WALRecord
  | k :: f :: rest =>
    match WALRecType.ofCode k.val with
    | some t =>
      match WALPayload.unpack (declared t) rest with
      | some p => some { type := t, payload := p, inTransaction := decide (f.val % 2 = 1) }
      | none => none
    | none => none
  | _ => none

/-! ## The computed-value executor (functionexecutor.cc) -/

/-- The members of `SelectFuncStruct` that `FunctionExecutor::Execute` reads (the struct
is declared in `core/selectfunc/selectfuncparser.h`, not part of the sources at hand). -/
structure SelectFuncStruct where
  funcName : String
  field : String
  funcArgs : List String
deriving DecidableEq, Repr

/-- The `Variant` values that `Execute` builds: `Variant(int64_t)`. -/
inductive Variant where
  | null
  | int64 (v : Int)
deriving DecidableEq, Repr

/-- Modelled from the spec: an entry of the pending replication batch
(`cluster::UpdateRecord`, not part of the sources at hand): either "a WAL record capturing
the counter mutation" of a serial call, with the field and the captured counter value, or
any other WAL record. -/
inductive UpdateRecord where
  | counterUpdate (field : String) (value : Int)
  | wal (rec : WALRecord)
deriving DecidableEq, Repr

/-- The counter value that a batch entry captures, if it captures one. -/
def UpdateRecord.capturedCounter : UpdateRecord → Option Int
  | UpdateRecord.counterUpdate _ v => some v
  | UpdateRecord.wal _ => none

/-- Modelled from the spec: the part of `NamespaceImpl` that the executor touches, "the
namespace's persistent counters", one per field (`core/namespace/namespaceimpl.h` is
not part of the sources at hand). -/
structure NamespaceImpl where
  serials : String → Int

/-- Modelled from the spec: `NamespaceImpl::GetSerial(field, replUpdates)`, not part of
the sources at hand: "returns the namespace's next auto-increment value for `field` and
does append a WAL record capturing the counter mutation". The counter is an unbounded
integer here. Result: the value, the namespace, the batch. -/
def NamespaceImpl.GetSerial (ns : NamespaceImpl) (field : String)
    (replUpdates : List UpdateRecord) : Int × NamespaceImpl × List UpdateRecord :=
  let next := ns.serials field + 1
  (next, { serials := fun f => if f = field then next else ns.serials f },
    replUpdates ++ [UpdateRecord.counterUpdate field next])

/-- The members of `FunctionExecutor` (functionexecutor.cc:8-9): references to the
namespace and to the pending replication batch. -/
structure FunctionExecutor where
  ns_ : NamespaceImpl
  replUpdates_ : List UpdateRecord

/-- The local `mode` of the `now` branch when `getTimeNow` is called
(functionexecutor.cc:13-16): `"sec"`, replaced by the first argument when there is one and
it is not empty. -/
def FunctionExecutor.nowMode (funcData : SelectFuncStruct) : String :=
  if ¬ funcData.funcArgs = [] ∧ ¬ funcData.funcArgs.headD "" = "" then
    funcData.funcArgs.headD ""
  else "sec"

/-- Embedding of `FunctionExecutor::Execute` (functionexecutor.cc:11-23). `getTimeNow`
(`tools/timetools.h`, not part of the sources at hand) is a parameter: what the clock
answers for a unit, or the error it throws. A thrown `Error` is the `Except.error`
result; the executor after the call is returned with it. `Error(errParams, "Unknown
function %s", funcData.field)` is the message with `%s` replaced by the argument. -/
def FunctionExecutor.Execute (getTimeNow : String → Except Error Int)
    (self : FunctionExecutor) (funcData : SelectFuncStruct) :
    Except Error Variant × FunctionExecutor :=
  if funcData.funcName = "now" then
    ((getTimeNow (FunctionExecutor.nowMode funcData)).map Variant.int64, self)
  else if funcData.funcName = "serial" then
    let r := self.ns_.GetSerial funcData.field self.replUpdates_
    (Except.ok (Variant.int64 r.1), { ns_ := r.2.1, replUpdates_ := r.2.2 })
  else
    (Except.error { code := ErrorCode.errParams,
                    what := "Unknown function " ++ funcData.field }, self)

/-- The string `sub` occurs in `s` as a contiguous piece. -/
def containsStr (s sub : String) : Prop := sub.data <:+: s.data

instance (s sub : String) : Decidable (containsStr s sub) := by
  unfold containsStr; infer_instance

/-! ## More of the facade: `BackgroundRoutine`, `GetName`, `OnConfigUpdated` -/

/-- Embedding of `Namespace::BackgroundRoutine(RdxActivityContext *ctx)`
(namespace.h:66-71). `implBackgroundRoutine` is `NamespaceImpl::BackgroundRoutine` with
`ctx` bound. -/
def Namespace.BackgroundRoutine {ι : Type}
    (implBackgroundRoutine : NamespaceImplPtr → Sys ι → Except Error Unit × Sys ι)
    (yield : Sys ι → Sys ι) (this : NamespacePtr) (fuel : Nat) (w : World ι) :
    Option (Except Error Unit × World ι) :=
  if (w.sys.facades this).hasCopy_ = true then
    some (Except.ok (), w)
  else
    nsFuncWrapper { name := "BackgroundRoutine", run := implBackgroundRoutine } yield this
      fuel w

/-- Embedding of `Namespace::GetName(const RdxContext &ctx)` (namespace.h:21).
`implGetName` is `NamespaceImpl::GetName` with `ctx` bound. -/
def Namespace.GetName {ι : Type}
    (implGetName : NamespaceImplPtr → Sys ι → Except Error String × Sys ι)
    (yield : Sys ι → Sys ι) (this : NamespacePtr) (fuel : Nat) (w : World ι) :
    Option (Except Error String × World ι) :=
  nsFuncWrapper { name := "GetName", run := implGetName } yield this fuel w

/-- The members of `NamespaceConfigData` that the facade reads (namespace.h:116-118; the
struct is declared in `core/dbconfig.h`, not part of the sources at hand). -/
structure NamespaceConfigData where
  startCopyPolicyTxSize : Int
  copyPolicyMultiplier : Int
  txSizeToAlwaysCopy : Int
deriving DecidableEq, Repr

/-- The `DBConfigProvider` as the facade uses it: `GetNamespaceConfig(name, configData)`
fills `configData` for the namespace `name` (the class is declared in `core/dbconfig.h`,
not part of the sources at hand, and is a parameter). -/
abbrev DBConfigProvider := String → NamespaceConfigData

/-- The system with the facade at address `this` changed by `f` (a store into members of
`*this`). -/
def Sys.updateFacade {ι : Type} (s : Sys ι) (this : NamespacePtr)
    (f : Namespace → Namespace) : Sys ι :=
  { s with facades := fun p => if p = this then f (s.facades p) else s.facades p }

/-- Embedding of `Namespace::OnConfigUpdated(DBConfigProvider &configProvider,
const RdxContext &ctx)` (namespace.h:113-120). `implGetName` and `implOnConfigUpdated`
are the two `NamespaceImpl` methods with `ctx` bound; each of the two forwarded calls may
go through `fuel` rounds of the retry loop. -/
def Namespace.OnConfigUpdated {ι : Type}
    (implGetName : NamespaceImplPtr → Sys ι → Except Error String × Sys ι)
    (implOnConfigUpdated :
      DBConfigProvider → NamespaceImplPtr → Sys ι → Except Error Unit × Sys ι)
    (yield : Sys ι → Sys ι) (this : NamespacePtr) (configProvider : DBConfigProvider)
    (fuel : Nat) (w : World ι) : Option (Except Error Unit × World ι) :=
  match Namespace.GetName implGetName yield this fuel w with
  | none => none
  | some (Except.error e, w1) => some (Except.error e, w1)
  | some (Except.ok name, w1) =>
    let configData := configProvider name
    let w2 : World ι :=
      { w1 with sys := w1.sys.updateFacade this (fun f =>
          { f with startCopyPolicyTxSize_ := configData.startCopyPolicyTxSize,
                   copyPolicyMultiplier_ := configData.copyPolicyMultiplier,
                   txSizeToAlwaysCopy_ := configData.txSizeToAlwaysCopy }) }
    nsFuncWrapper { name := "OnConfigUpdated", run := implOnConfigUpdated configProvider }
      yield this fuel w2

/-- The kinds in the order of the enumeration (walrecord.h:16-35), which is the order in
which the data model of the spec lists them. -/
def WALRecType.all : List WALRecType :=
  [WALRecType.WalEmpty, WALRecType.WalReplState, WALRecType.WalItemUpdate,
    WALRecType.WalItemModify, WALRecType.WalIndexAdd, WALRecType.WalIndexDrop,
    WALRecType.WalIndexUpdate, WALRecType.WalPutMeta, WALRecType.WalUpdateQuery,
    WALRecType.WalNamespaceAdd, WALRecType.WalNamespaceDrop, WALRecType.WalNamespaceRename,
    WALRecType.WalInitTransaction, WALRecType.WalCommitTransaction, WALRecType.WalForceSync,
    WALRecType.WalSetSchema, WALRecType.WalWALSync, WALRecType.WalTagsMatcher,
    WALRecType.WalResetLocalWal, WALRecType.WalRawItem]

/-! ## Enumeration options (namespacedef.h) -/

/-- The enumerator `kEnumNamespacesWithClosed = 1` (namespacedef.h:56). -/
def kEnumNamespacesWithClosed : Nat := 1

/-- The enumerator `kEnumNamespacesOnlyNames = 2` (namespacedef.h:57). -/
def kEnumNamespacesOnlyNames : Nat := 2

/-- The enumerator `kEnumNamespacesHideSystem = 4` (namespacedef.h:58). -/
def kEnumNamespacesHideSystem : Nat := 4

/-- The enumerator `kEnumNamespacesHideTemporary = 5` (namespacedef.h:59). -/
def kEnumNamespacesHideTemporary : Nat := 5

/-- The `struct EnumNamespacesOpts` (namespacedef.h:62-101): the name filter and the
16-bit word `options_`; the default constructor sets `options_` to 0 and leaves the filter
empty. -/
structure EnumNamespacesOpts where
  filter_ : String := ""
  options_ : Nat := 0
deriving DecidableEq, Repr

/-- The bits of the 16-bit word `options` with those of `flag` set: `options_ | flag`,
stored into a `uint16_t`. -/
def setFlag (options flag : Nat) : Nat := (options ||| flag) % 65536

/-- The bits of the 16-bit word `options` with those of `flag` cleared:
`options_ & ~(flag)`, where `~` is taken on a 32-bit integer, stored into a `uint16_t`. -/
def clearFlag (options flag : Nat) : Nat := (options &&& (4294967295 - flag)) % 65536

/-- Embedding of `IsWithClosed()` (namespacedef.h:65): `options_ & flag` as a `bool`. -/
def EnumNamespacesOpts.IsWithClosed (o : EnumNamespacesOpts) : Bool :=
  (o.options_ &&& kEnumNamespacesWithClosed) != 0

/-- Embedding of `IsOnlyNames()` (namespacedef.h:66). -/
def EnumNamespacesOpts.IsOnlyNames (o : EnumNamespacesOpts) : Bool :=
  (o.options_ &&& kEnumNamespacesOnlyNames) != 0

/-- Embedding of `IsHideSystem()` (namespacedef.h:67). -/
def EnumNamespacesOpts.IsHideSystem (o : EnumNamespacesOpts) : Bool :=
  (o.options_ &&& kEnumNamespacesHideSystem) != 0

/-- Embedding of `IsHideTemporary()` (namespacedef.h:68). -/
def EnumNamespacesOpts.IsHideTemporary (o : EnumNamespacesOpts) : Bool :=
  (o.options_ &&& kEnumNamespacesHideTemporary) != 0

/-- Embedding of `WithClosed(bool value = true)` (namespacedef.h:75-78). -/
def EnumNamespacesOpts.WithClosed (o : EnumNamespacesOpts) (value : Bool := true) :
    EnumNamespacesOpts :=
  { o with options_ :=
      if value then setFlag o.options_ kEnumNamespacesWithClosed
      else clearFlag o.options_ kEnumNamespacesWithClosed }

/-- Embedding of `OnlyNames(bool value = true)` (namespacedef.h:80-83). -/
def EnumNamespacesOpts.OnlyNames (o : EnumNamespacesOpts) (value : Bool := true) :
    EnumNamespacesOpts :=
  { o with options_ :=
      if value then setFlag o.options_ kEnumNamespacesOnlyNames
      else clearFlag o.options_ kEnumNamespacesOnlyNames }

/-- Embedding of `HideSystem(bool value = true)` (namespacedef.h:85-88). -/
def EnumNamespacesOpts.HideSystem (o : EnumNamespacesOpts) (value : Bool := true) :
    EnumNamespacesOpts :=
  { o with options_ :=
      if value then setFlag o.options_ kEnumNamespacesHideSystem
      else clearFlag o.options_ kEnumNamespacesHideSystem }

/-- Embedding of `HideTemporary(bool value = true)` (namespacedef.h:90-93). -/
def EnumNamespacesOpts.HideTemporary (o : EnumNamespacesOpts) (value : Bool := true) :
    EnumNamespacesOpts :=
  { o with options_ :=
      if value then setFlag o.options_ kEnumNamespacesHideTemporary
      else clearFlag o.options_ kEnumNamespacesHideTemporary }

/-- Embedding of `WithFilter(string_view flt)` (namespacedef.h:95-98). -/
def EnumNamespacesOpts.WithFilter (o : EnumNamespacesOpts) (flt : String) :
    EnumNamespacesOpts :=
  { o with filter_ := flt }

/-! ## `contexted_cond_var` (estl/contexted_cond_var.h) -/

/-- Modelled from the spec: the context as a wait sees it (the template parameter
`_ContextT`; `isCancelable()` and `ThrowOnCancel` come from `estl/contexted_locks.h` and
`core/rdxcontext.h`, not part of the sources at hand). A context that cannot be canceled
has no cancellation source; one that can has a "cancellation-flag" (set by another thread,
or by the deadline elapsing), whose value at the check made after `i` rounds of waiting
is `flag i`. -/
structure WaitContext where
  cancelSource : Option (Nat → Bool)

/-- Modelled from the spec: `isCancelable()`, whether the context has a cancellation
source. -/
def WaitContext.isCancelable (ctx : WaitContext) : Bool := ctx.cancelSource.isSome

/-- Modelled from the spec: whether the cancellation flag is set at the check made after
`i` rounds of waiting. -/
def WaitContext.canceledAt (ctx : WaitContext) (i : Nat) : Bool :=
  match ctx.cancelSource with
  | some flag => flag i
  | none => false

/-- Modelled from the spec: `ThrowOnCancel(ctx, errMsg)`, made after `i` rounds of waiting:
"if the context's cancellation flag is set (or deadline elapses) during a wait, the wait
fails fast with a canceled-operation error". -/
def ThrowOnCancel (ctx : WaitContext) (i : Nat) (errMsg : String) : Except Error Unit :=
  if ctx.canceledAt i = true then
    Except.error { code := ErrorCode.errCanceled, what := errMsg }
  else Except.ok ()

/-- What the standard condition variable (`std::condition_variable_any`) and the other
threads do, as the waiting thread observes it. `predAt i` is observation number `i`
(counted from 0) of the predicate `__p()` under the lock: the value that call number `i`
of `wait_for(__lock, _M_chk_timeout, __p)` returns, or the value of evaluation number `i`
of `__p()` in the loop of the plain wait. `notifiedAt i` tells whether round `i` of a wait
without predicate ends by a notification or spurious wake-up (`cv_status::no_timeout`)
rather than by the timeout. -/
structure CondVarEnv where
  predAt : Nat → Bool
  notifiedAt : Nat → Bool

/-- The `class contexted_cond_var` (contexted_cond_var.h:8-58): the check timeout in
milliseconds (`_M_chk_timeout.count()`). The condition variable `_M_cond_var` is not null
in every object built by the constructor (line 12), so the assertions hold. -/
structure contexted_cond_var where
  _M_chk_timeout : Int
deriving DecidableEq, Repr

/-- The message of the cancellation checks of both waits (contexted_cond_var.h:25, 38). -/
def condWaitCanceledMsg : String := "Cond wait was canceled on condition"

/-- The loop `do { ThrowOnCancel(...); } while (!_M_cond_var->wait_for(__lock,
_M_chk_timeout, __p));` (contexted_cond_var.h:24-26), from round `i` on, unrolled at most
`fuel` times. Result: the outcome and the number of rounds of waiting made; `none` when
the fuel runs out. -/
def contexted_cond_var.pollPred (ctx : WaitContext) (env : CondVarEnv) :
    Nat → Nat → Option (Except Error Unit × Nat)
  | 0, _ => none
  | fuel + 1, i =>
    match ThrowOnCancel ctx i condWaitCanceledMsg with
    | Except.error e => some (Except.error e, i)
    | Except.ok _ =>
      if env.predAt i = true then some (Except.ok (), i + 1)
      else contexted_cond_var.pollPred ctx env fuel (i + 1)

/-- The standard `wait(__lock, __p)`, which is `while (!__p()) wait(__lock);`
(contexted_cond_var.h:28), from round `i` on: it returns once the predicate holds and
makes no cancellation check. -/
def contexted_cond_var.plainWaitPred (env : CondVarEnv) :
    Nat → Nat → Option (Except Error Unit × Nat)
  | 0, _ => none
  | fuel + 1, i =>
    if env.predAt i = true then some (Except.ok (), i)
    else contexted_cond_var.plainWaitPred env fuel (i + 1)

/-- Embedding of `contexted_cond_var::wait(__lock, __p, __context)`, the overload with a
predicate (contexted_cond_var.h:19-30). -/
def contexted_cond_var.waitPred (cv : contexted_cond_var) (ctx : WaitContext)
    (env : CondVarEnv) (fuel : Nat) : Option (Except Error Unit × Nat) :=
  if cv._M_chk_timeout > 0 ∧ ctx.isCancelable = true then
    contexted_cond_var.pollPred ctx env fuel 0
  else
    contexted_cond_var.plainWaitPred env fuel 0

/-- The loop `do { ThrowOnCancel(...); } while (_M_cond_var->wait_for(__lock,
_M_chk_timeout) == std::cv_status::timeout);` (contexted_cond_var.h:37-39), from round `i`
on, unrolled at most `fuel` times. -/
def contexted_cond_var.poll (ctx : WaitContext) (env : CondVarEnv) :
    Nat → Nat → Option (Except Error Unit × Nat)
  | 0, _ => none
  | fuel + 1, i =>
    match ThrowOnCancel ctx i condWaitCanceledMsg with
    | Except.error e => some (Except.error e, i)
    | Except.ok _ =>
      if env.notifiedAt i = true then some (Except.ok (), i + 1)
      else contexted_cond_var.poll ctx env fuel (i + 1)

/-- The standard `wait(__lock)` (contexted_cond_var.h:41), from round `i` on: it returns
when a round ends by a notification or spurious wake-up, and makes no cancellation
check. -/
def contexted_cond_var.plainWait (env : CondVarEnv) :
    Nat → Nat → Option (Except Error Unit × Nat)
  | 0, _ => none
  | fuel + 1, i =>
    if env.notifiedAt i = true then some (Except.ok (), i + 1)
    else contexted_cond_var.plainWait env fuel (i + 1)

/-- Embedding of `contexted_cond_var::wait(__lock, __context)`, the overload without
predicate (contexted_cond_var.h:32-43). -/
def contexted_cond_var.wait (cv : contexted_cond_var) (ctx : WaitContext)
    (env : CondVarEnv) (fuel : Nat) : Option (Except Error Unit × Nat) :=
  if cv._M_chk_timeout > 0 ∧ ctx.isCancelable = true then
    contexted_cond_var.poll ctx env fuel 0
  else
    contexted_cond_var.plainWait env fuel 0

/-! ## The facade under concurrent callers: `awaitMainNs` and the clone

The threads that call into one facade are interleaved step by step. The steps of
`awaitMainNs` are those of namespace.h:136-143. The code that clones
(`Namespace::CommitTransaction` in `namespace.cc`) and the lock class
`contexted_unique_lock` (`estl/contexted_locks.h`) are not part of the sources at hand;
their steps follow the spec. -/

/-- Identity of a calling thread. -/
abbrev ThreadId := Nat

/-- Where a thread stands in `awaitMainNs` or in a clone. -/
inductive Pc where
  /-- In neither. -/
  | idle
  /-- In `awaitMainNs`: saw `hasCopy_` clear (namespace.h:137), before
  `atomicLoadMainNs()` (namespace.h:142). -/
  | awaitLoad
  /-- In `awaitMainNs`: saw `hasCopy_` set (namespace.h:137), waits for `clonerMtx_`
  (namespace.h:138). -/
  | awaitLock
  /-- In `awaitMainNs`: holds `clonerMtx_`, before the assertion (namespace.h:139). -/
  | awaitLocked
  /-- A clone was triggered; waits for `clonerMtx_`. -/
  | cloneLock
  /-- Holds `clonerMtx_`; the clone has not begun. -/
  | cloneLocked
  /-- The flag `hasCopy_` is set; the copy is not built yet. -/
  | cloneFlagged
  /-- The pending clone `nsCopy_` exists. -/
  | cloneBuilt
  /-- The clone is published; the flag is still set. -/
  | clonePublished
  /-- The flag is cleared; `clonerMtx_` is still held. -/
  | cloneCleared
deriving DecidableEq, Repr

/-- The program points at which the thread holds `clonerMtx_`. -/
def Pc.holdsMtx : Pc → Bool
  | Pc.awaitLocked => true
  | Pc.cloneLocked => true
  | Pc.cloneFlagged => true
  | Pc.cloneBuilt => true
  | Pc.clonePublished => true
  | Pc.cloneCleared => true
  | _ => false

/-- The program points at which the thread has a clone in progress: from setting the flag
to clearing it. -/
def Pc.cloning : Pc → Bool
  | Pc.cloneFlagged => true
  | Pc.cloneBuilt => true
  | Pc.clonePublished => true
  | _ => false

/-- The steps a thread can take. -/
inductive Action where
  /-- Enter `awaitMainNs` and test `hasCopy_` (namespace.h:137). -/
  | awaitEnter
  /-- With the flag seen clear, `return atomicLoadMainNs()` (namespace.h:142). -/
  | awaitLoad
  /-- The constructor of `lck` obtains `clonerMtx_` (namespace.h:138). -/
  | awaitAcquire
  /-- Modelled from the spec: the constructor of `lck` gives up and throws `e`, "if the
  context's cancellation flag is set (or deadline elapses) during a wait, the wait fails
  fast with a canceled-operation error". -/
  | awaitCanceled (e : Error)
  /-- The assertion, `return ns_`, and the release of `clonerMtx_` by the destructor of
  `lck` (namespace.h:139-141). -/
  | awaitReturn
  /-- A mutating batch triggers a clone. -/
  | cloneTrigger
  /-- The cloner obtains `clonerMtx_`. -/
  | cloneAcquire
  /-- The cloner gives up waiting for `clonerMtx_` (its context was canceled). -/
  | cloneCanceled
  /-- Under the mutex the cloner finds that no clone is needed any more, and releases. -/
  | cloneSkip
  /-- The cloner sets the flag `hasCopy_`. -/
  | cloneBegin
  /-- The cloner builds the pending clone `copy` into `nsCopy_`. -/
  | cloneBuild (copy : NamespaceImplPtr)
  /-- The cloner publishes the pending clone as `ns_`. -/
  | clonePublish
  /-- The cloner clears the flag `hasCopy_`. -/
  | cloneClear
  /-- The cloner releases `clonerMtx_`. -/
  | cloneUnlock
deriving DecidableEq, Repr

/-- One facade and its callers: the members of the facade, the holder of `clonerMtx_`,
where each thread stands, what the last `awaitMainNs` of each thread returned or threw,
and whether the assertion of namespace.h:139 ever failed. -/
structure FacadeState where
  facade : Namespace
  clonerMtx_ : Option ThreadId
  pc : ThreadId → Pc
  result : ThreadId → Option (Except Error NamespaceImplPtr)
  assertFailed : Bool

/-- The state with thread `t` moved to the program point `p`. -/
def FacadeState.setPc (s : FacadeState) (t : ThreadId) (p : Pc) : FacadeState :=
  { s with pc := fun u => if u = t then p else s.pc u }

/-- The state with the outcome `r` of `awaitMainNs` recorded for thread `t`. -/
def FacadeState.setResult (s : FacadeState) (t : ThreadId)
    (r : Except Error NamespaceImplPtr) : FacadeState :=
  { s with result := fun u => if u = t then some r else s.result u }

/-- Embedding of `Namespace::awaitMainNs` (namespace.h:136-143), step by step, for the
thread `t`; `none` when the step cannot be taken in `s`. -/
def FacadeState.stepAwait (s : FacadeState) (t : ThreadId) : Action → Option FacadeState
  | Action.awaitEnter =>
    if s.pc t = Pc.idle then
      if s.facade.hasCopy_ = true then some (s.setPc t Pc.awaitLock)
      else some (s.setPc t Pc.awaitLoad)
    else none
  | Action.awaitLoad =>
    if s.pc t = Pc.awaitLoad then
      some ((s.setPc t Pc.idle).setResult t (Except.ok s.facade.ns_))
    else none
  | Action.awaitAcquire =>
    if s.pc t = Pc.awaitLock ∧ s.clonerMtx_ = none then
      some { s.setPc t Pc.awaitLocked with clonerMtx_ := some t }
    else none
  | Action.awaitCanceled e =>
    if s.pc t = Pc.awaitLock then some ((s.setPc t Pc.idle).setResult t (Except.error e))
    else none
  | Action.awaitReturn =>
    if s.pc t = Pc.awaitLocked then
      some { ((s.setPc t Pc.idle).setResult t (Except.ok s.facade.ns_)) with
        assertFailed := s.assertFailed || s.facade.hasCopy_,
        clonerMtx_ := none }
    else none
  | _ => none

/-- Modelled from the spec: the clone, step by step, for the thread `t` (the code is in
`namespace.cc`, not part of the sources at hand). "Exactly one background reorganization
(clone) may be in flight per Facade instance at a time, serialized by a timed mutex"; "a
clone in progress flag (atomic boolean) is set before a ... reorganization begins, and
cleared only after the new implementation is published"; "at most one pending clone handle
may exist simultaneously, owned exclusively by the cloning operation until
publication". -/
def FacadeState.stepClone (s : FacadeState) (t : ThreadId) : Action → Option FacadeState
  | Action.cloneTrigger =>
    if s.pc t = Pc.idle then some (s.setPc t Pc.cloneLock) else none
  | Action.cloneAcquire =>
    if s.pc t = Pc.cloneLock ∧ s.clonerMtx_ = none then
      some { s.setPc t Pc.cloneLocked with clonerMtx_ := some t }
    else none
  | Action.cloneCanceled =>
    if s.pc t = Pc.cloneLock then some (s.setPc t Pc.idle) else none
  | Action.cloneSkip =>
    if s.pc t = Pc.cloneLocked then some { s.setPc t Pc.idle with clonerMtx_ := none }
    else none
  | Action.cloneBegin =>
    if s.pc t = Pc.cloneLocked then
      some { s.setPc t Pc.cloneFlagged with facade := { s.facade with hasCopy_ := true } }
    else none
  | Action.cloneBuild copy =>
    if s.pc t = Pc.cloneFlagged then
      some { s.setPc t Pc.cloneBuilt with facade := { s.facade with nsCopy_ := some copy } }
    else none
  | Action.clonePublish =>
    if s.pc t = Pc.cloneBuilt then
      match s.facade.nsCopy_ with
      | some copy =>
        some { s.setPc t Pc.clonePublished with
          facade := { s.facade with ns_ := copy, nsCopy_ := none } }
      | none => none
    else none
  | Action.cloneClear =>
    if s.pc t = Pc.clonePublished then
      some { s.setPc t Pc.cloneCleared with facade := { s.facade with hasCopy_ := false } }
    else none
  | Action.cloneUnlock =>
    if s.pc t = Pc.cloneCleared then some { s.setPc t Pc.idle with clonerMtx_ := none }
    else none
  | _ => none

/-- One step of thread `t`: a step of `awaitMainNs` or a step of the clone. -/
def FacadeState.step (s : FacadeState) (t : ThreadId) (a : Action) : Option FacadeState :=
  match s.stepAwait t a with
  | some s1 => some s1
  | none => s.stepClone t a

/-- The state after a schedule of steps; a step that cannot be taken when its turn comes
(a thread blocked on the mutex, say) leaves the state as it is. -/
def FacadeState.run (s : FacadeState) : List (ThreadId × Action) → FacadeState
  | [] => s
  | (t, a) :: rest => FacadeState.run ((s.step t a).getD s) rest

/-- A facade as its constructor leaves it (namespace.h:17, 174-175): implementation `ns`
published, no pending clone, flag clear; the mutex is free and no thread is inside. -/
def FacadeState.init (ns : NamespaceImplPtr) : FacadeState :=
  { facade := { ns_ := ns, nsCopy_ := none, hasCopy_ := false },
    clonerMtx_ := none,
    pc := fun _ => Pc.idle,
    result := fun _ => none,
    assertFailed := false }

/-- The state reached from a fresh facade by a schedule. -/
def FacadeState.reached (ns : NamespaceImplPtr) (schedule : List (ThreadId × Action)) :
    FacadeState :=
  (FacadeState.init ns).run schedule

/-- What holds in every reachable state: a thread at a program point that holds the mutex
is the holder; the flag is set only while a cloning thread holds the mutex, and a cloning
thread has the flag set; a pending clone exists only while its builder holds the mutex;
the assertion has not failed. -/
structure FacadeState.Inv (s : FacadeState) : Prop where
  holder : ∀ t, (s.pc t).holdsMtx = true → s.clonerMtx_ = some t
  flag : s.facade.hasCopy_ = true → ∃ t, s.clonerMtx_ = some t ∧ (s.pc t).cloning = true
  cloner : ∀ t, (s.pc t).cloning = true → s.facade.hasCopy_ = true
  pending : s.facade.nsCopy_.isSome = true →
    ∃ t, s.clonerMtx_ = some t ∧ s.pc t = Pc.cloneBuilt
  noAssert : s.assertFailed = false

/-! ## `MatchNameFilter` and `NamespaceDef` (namespacedef.h) -/

/-- Embedding of `EnumNamespacesOpts::MatchNameFilter(string_view nsName)`
(namespacedef.h:70-72). `iequals` (`tools/stringstools.h`, not part of the sources at
hand) is a parameter: equality of two strings ignoring case. -/
def EnumNamespacesOpts.MatchNameFilter (iequals : String → String → Bool)
    (o : EnumNamespacesOpts) (nsName : String) : Bool :=
  (decide (o.filter_ = "") || iequals o.filter_ nsName) &&
    (!o.IsHideSystem ||
      (!decide (nsName = "") &&
        match nsName.data with
        | c :: _ => c != '#'
        | [] => false))

/-- The type `StorageOpts` (`core/type_consts.h`, not part of the sources at hand): its
values are opaque here. -/
abbrev StorageOpts := Nat

/-- The type `IndexOpts` (`core/indexopts.h`, not part of the sources at hand): its values
are opaque here. -/
abbrev IndexOpts := Nat

/-- The members of `IndexDef` that the `AddIndex` overloads initialise
(namespacedef.h:27, 33; the struct is declared in `core/indexdef.h`, not part of the
sources at hand). -/
structure IndexDef where
  name : String
  jsonPaths : List String
  indexType : String
  fieldType : String
  opts : IndexOpts
deriving DecidableEq, Repr

/-- The `struct NamespaceDef` (namespacedef.h:20-53) with its default member
initialisers; `NamespaceDef()` is the structure with every default. The default of
`StorageOpts` is taken as 0. The default of `schemaJson` is the two-character string of an
opening and a closing brace. -/
structure NamespaceDef where
  name : String := ""
  storage : StorageOpts := 0
  indexes : List IndexDef := []
  isTemporary : Bool := false
  schemaJson : String := "\x7b\x7d"
deriving DecidableEq, Repr

/-- Embedding of `NamespaceDef(string iname, StorageOpts istorage = ...)`
(namespacedef.h:23-24); the default `StorageOpts().Enabled().CreateIfMissing()` is built
by code that is not at hand, so `istorage` is always given. -/
def NamespaceDef.ofName (iname : String) (istorage : StorageOpts) : NamespaceDef :=
  { name := iname, storage := istorage }

/-- Embedding of `AddIndex(iname, indexType, fieldType, opts)` (namespacedef.h:26-29). -/
def NamespaceDef.AddIndex (d : NamespaceDef) (iname indexType fieldType : String)
    (opts : IndexOpts) : NamespaceDef :=
  { d with indexes := d.indexes ++
      [{ name := iname, jsonPaths := [iname], indexType := indexType,
         fieldType := fieldType, opts := opts }] }

/-- Embedding of `AddIndex(iname, jsonPaths, indexType, fieldType, opts)`
(namespacedef.h:31-35). -/
def NamespaceDef.AddIndexPaths (d : NamespaceDef) (iname : String) (jsonPaths : List String)
    (indexType fieldType : String) (opts : IndexOpts) : NamespaceDef :=
  { d with indexes := d.indexes ++
      [{ name := iname, jsonPaths := jsonPaths, indexType := indexType,
         fieldType := fieldType, opts := opts }] }

/-- Embedding of `AddIndex(const IndexDef &idxDef)` (namespacedef.h:37-40). -/
def NamespaceDef.AddIndexDef (d : NamespaceDef) (idxDef : IndexDef) : NamespaceDef :=
  { d with indexes := d.indexes ++ [idxDef] }

/-- Embedding of `NamespaceDef::HasSchema()` (namespacedef.h:45). -/
def NamespaceDef.HasSchema (d : NamespaceDef) : Bool :=
  !decide (d.schemaJson = "") && decide (d.schemaJson ≠ "\x7b\x7d")

/-! ## The command dispatcher of the tool (commandsexecutor.cc) -/

/-- An entry of the command table `cmds_` (`commandDefinition`, declared in
`commandsexecutor.h`, not part of the sources at hand): the command name and the handler,
a member function that receives the whole command line, returns an `Error` and may change
the state `σ` of the executor. -/
structure commandDefinition (σ : Type) where
  command : String
  handler : String → σ → Error × σ

/-- What `processImpl` leaves behind: the `Error` it returns, the state of the executor,
and the positions in the command table of the handlers it ran, in order. -/
structure ProcessResult (σ : Type) where
  ret : Error
  state : σ
  ran : List Nat

/-- The `Error` built from the bare code `errOK` (`return errOK;`, and `Error ret;`). -/
def Error.ok : Error := { code := ErrorCode.errOK, what := "" }

/-- The apostrophe, as a string. -/
def apostrophe : String := String.singleton (Char.ofNat 39)

/-- The message of `Error(errParams, "Unknown command '%s'. Type '\\help' to list of
available commands", token)` (commandsexecutor.cc:426), with `%s` replaced by the
token. -/
def unknownCommandMsg (token : String) : String :=
  "Unknown command " ++ apostrophe ++ token ++ apostrophe ++ ". Type " ++ apostrophe ++
    "\\help" ++ apostrophe ++ " to list of available commands"

/-- The loop `for (auto& c : cmds_)` of `processImpl` and the `return` after it
(commandsexecutor.cc:416-426), from the entry at position `i` on. `IsCancelled` and
`Reset` are the two operations of the cancellation context `cancelCtx_` (its class is
declared in `commandsexecutor.h`, not part of the sources at hand), acting on the state
of the executor. -/
def processLoop {σ : Type} (iequals : String → String → Bool) (IsCancelled : σ → Bool)
    (Reset : σ → σ) (token command : String) :
    List (commandDefinition σ) → Nat → σ → ProcessResult σ
  | [], _, s =>
    { ret := { code := ErrorCode.errParams, what := unknownCommandMsg token },
      state := s, ran := [] }
  | c :: rest, i, s =>
    if iequals token c.command = true then
      let r := c.handler command s
      let ret : Error :=
        if IsCancelled r.2 = true then { code := ErrorCode.errCanceled, what := "Canceled" }
        else r.1
      { ret := ret, state := Reset r.2, ran := [i] }
    else processLoop iequals IsCancelled Reset token command rest (i + 1) s

/-- Embedding of `CommandsExecutor::processImpl(const std::string& command)`
(commandsexecutor.cc:408-427). `nextToken` is `LineParser(command).NextToken()`
(`LineParser` is not part of the sources at hand): the first token of the line. -/
def processImpl {σ : Type} (nextToken : String → String) (iequals : String → String → Bool)
    (IsCancelled : σ → Bool) (Reset : σ → σ) (cmds_ : List (commandDefinition σ))
    (command : String) (s : σ) : ProcessResult σ :=
  let token := nextToken command
  if token.length = 0 ∨ token.data.take 2 = "--".data then
    { ret := Error.ok, state := s, ran := [] }
  else processLoop iequals IsCancelled Reset token command cmds_ 0 s

/-! ### What a wait does, step by step -/

/-- A step of a wait: a cancellation check (`ThrowOnCancel`), a timed wait on the
condition variable (`wait_for` with the given timeout in milliseconds), or an untimed
wait (`wait`). -/
inductive WaitEvent where
  | cancelCheck
  | timedWait (timeout : Int)
  | untimedWait
deriving DecidableEq, Repr

/-- The steps of the loop of `pollPred` (contexted_cond_var.h:24-26), from round `i` on,
in the order in which they are taken, for at most `fuel` rounds. -/
def contexted_cond_var.pollPredEvents (cv : contexted_cond_var) (ctx : WaitContext)
    (env : CondVarEnv) : Nat → Nat → List WaitEvent
  | 0, _ => []
  | fuel + 1, i =>
    WaitEvent.cancelCheck ::
      (match ThrowOnCancel ctx i condWaitCanceledMsg with
      | Except.error _ => []
      | Except.ok _ =>
        WaitEvent.timedWait cv._M_chk_timeout ::
          (if env.predAt i = true then []
           else contexted_cond_var.pollPredEvents cv ctx env fuel (i + 1)))

/-- The steps of the loop of `poll` (contexted_cond_var.h:37-39), from round `i` on, in
the order in which they are taken, for at most `fuel` rounds. -/
def contexted_cond_var.pollEvents (cv : contexted_cond_var) (ctx : WaitContext)
    (env : CondVarEnv) : Nat → Nat → List WaitEvent
  | 0, _ => []
  | fuel + 1, i =>
    WaitEvent.cancelCheck ::
      (match ThrowOnCancel ctx i condWaitCanceledMsg with
      | Except.error _ => []
      | Except.ok _ =>
        WaitEvent.timedWait cv._M_chk_timeout ::
          (if env.notifiedAt i = true then []
           else contexted_cond_var.pollEvents cv ctx env fuel (i + 1)))

/-- The steps of `waitPred` (contexted_cond_var.h:19-30): those of the polling loop, or
the one untimed wait with the predicate. -/
def contexted_cond_var.waitPredEvents (cv : contexted_cond_var) (ctx : WaitContext)
    (env : CondVarEnv) (fuel : Nat) : List WaitEvent :=
  if cv._M_chk_timeout > 0 ∧ ctx.isCancelable = true then
    contexted_cond_var.pollPredEvents cv ctx env fuel 0
  else [WaitEvent.untimedWait]

/-- The steps of `wait` (contexted_cond_var.h:32-43): those of the polling loop, or the
one untimed wait. -/
def contexted_cond_var.waitEvents (cv : contexted_cond_var) (ctx : WaitContext)
    (env : CondVarEnv) (fuel : Nat) : List WaitEvent :=
  if cv._M_chk_timeout > 0 ∧ ctx.isCancelable = true then
    contexted_cond_var.pollEvents cv ctx env fuel 0
  else [WaitEvent.untimedWait]

/-- A sequence of steps in which every wait is a timed wait of `timeout` milliseconds and
comes right after a cancellation check, and every cancellation check but the last is
followed by such a wait. -/
def checkedPolling (timeout : Int) : List WaitEvent → Bool
  | [] => true
  | [WaitEvent.cancelCheck] => true
  | WaitEvent.cancelCheck :: WaitEvent.timedWait t :: rest =>
    decide (t = timeout) && checkedPolling timeout rest
  | _ => false

/-- The number of timed waits in a sequence of steps. -/
def timedWaits : List WaitEvent → Nat
  | [] => 0
  | WaitEvent.timedWait _ :: rest => timedWaits rest + 1
  | _ :: rest => timedWaits rest

/-! ## Lock discipline of the published pointer (namespace.h)

The facade operations once more, this time as the sequence of what they do to the two
locks and to the members `ns_` and `hasCopy_`, in program order. -/

/-- One thing a facade operation does to a lock or to a member. -/
inductive MemEvent where
  /-- The spin-lock `nsPtrSpinlock_` is taken (constructor of the `std::lock_guard`). -/
  | spinLock
  /-- The spin-lock is released (destructor of the `std::lock_guard`). -/
  | spinUnlock
  /-- The mutex `clonerMtx_` is taken (constructor of the `contexted_unique_lock`). -/
  | clonerLock
  /-- The mutex `clonerMtx_` is released (destructor of the `contexted_unique_lock`). -/
  | clonerUnlock
  /-- The atomic flag is read: `hasCopy_.load(...)`. -/
  | loadHasCopy
  /-- The pointer `ns_` is read. -/
  | readNs
  /-- The pointer `ns_` is written. -/
  | writeNs
  /-- A method of the implementation is called through the copy of the pointer. -/
  | callImpl
  /-- The thread yields: `std::this_thread::yield()`. -/
  | yield
deriving DecidableEq, Repr

/-- The steps of `atomicLoadMainNs` (namespace.h:164-167): lock guard, `return ns_`, end
of scope. -/
def atomicLoadMainNsEvents : List MemEvent :=
  [MemEvent.spinLock, MemEvent.readNs, MemEvent.spinUnlock]

/-- The steps of `atomicStoreMainNs` (namespace.h:168-171): lock guard, `ns_.reset(ns)`,
end of scope. -/
def atomicStoreMainNsEvents : List MemEvent :=
  [MemEvent.spinLock, MemEvent.writeNs, MemEvent.spinUnlock]

/-- The steps of `getMainNs` (namespace.h:135): `return atomicLoadMainNs()`. -/
def getMainNsEvents : List MemEvent := atomicLoadMainNsEvents

/-- The steps of `awaitMainNs` (namespace.h:136-143), given what `hasCopy_.load` answers
on entry: with the flag set, the lock on `clonerMtx_`, the assertion, `return ns_`, end of
scope; with the flag clear, `return atomicLoadMainNs()`. -/
def awaitMainNsEvents (hasCopy : Bool) : List MemEvent :=
  if hasCopy = true then
    [MemEvent.loadHasCopy, MemEvent.clonerLock, MemEvent.loadHasCopy, MemEvent.readNs,
      MemEvent.clonerUnlock]
  else MemEvent.loadHasCopy :: atomicLoadMainNsEvents

/-- The steps of `nsFuncWrapper` (namespace.h:146-160) when the first `retries` attempts
are invalidated and the next one is not: each attempt is `atomicLoadMainNs()` and the call;
an invalidated attempt is followed by a yield. -/
def nsFuncWrapperEvents : Nat → List MemEvent
  | 0 => atomicLoadMainNsEvents ++ [MemEvent.callImpl]
  | retries + 1 =>
    atomicLoadMainNsEvents ++ [MemEvent.callImpl, MemEvent.yield] ++
      nsFuncWrapperEvents retries

/-- Whether every read and every write of `ns_` in a sequence of steps happens while the
spin-lock is held; `held` tells whether it is held at the start. -/
def accessesUnderSpinLock : Bool → List MemEvent → Bool
  | _, [] => true
  | _, MemEvent.spinLock :: rest => accessesUnderSpinLock true rest
  | _, MemEvent.spinUnlock :: rest => accessesUnderSpinLock false rest
  | held, MemEvent.readNs :: rest => held && accessesUnderSpinLock held rest
  | held, MemEvent.writeNs :: rest => held && accessesUnderSpinLock held rest
  | held, _ :: rest => accessesUnderSpinLock held rest

/-- Whether every read and every write of `ns_` in a sequence of steps happens while the
mutex `clonerMtx_` is held; `held` tells whether it is held at the start. -/
def accessesUnderClonerMtx : Bool → List MemEvent → Bool
  | _, [] => true
  | _, MemEvent.clonerLock :: rest => accessesUnderClonerMtx true rest
  | _, MemEvent.clonerUnlock :: rest => accessesUnderClonerMtx false rest
  | held, MemEvent.readNs :: rest => held && accessesUnderClonerMtx held rest
  | held, MemEvent.writeNs :: rest => held && accessesUnderClonerMtx held rest
  | held, _ :: rest => accessesUnderClonerMtx held rest

/-! ## The client wrappers (raftclient.cc, synccororeindexer.cc) -/

/-- The members of a client wrapper that decide who deletes the implementation: the
pointer `impl_` (the identity of the implementation object) and the flag `owner_`. The
code of `RaftClient` (raftclient.cc:8-23) and of `SyncCoroReindexer`
(synccororeindexer.cc:10-27) is the same up to the class names; the member `ctx_` plays
no part in it. -/
structure ClientWrapper where
  impl_ : Nat
  owner_ : Bool
deriving DecidableEq, Repr

/-- A `RaftClient` object (raftclient.cc). -/
abbrev RaftClient := ClientWrapper

/-- A `SyncCoroReindexer` object (synccororeindexer.cc). -/
abbrev SyncCoroReindexer := ClientWrapper

/-- The wrapper objects alive, by address; the implementation objects allocated and not
deleted; the record of every `delete impl_` made so far; and the identity of the next
implementation object that `new` will allocate. -/
structure ClientHeap where
  wrappers : List (Nat × ClientWrapper)
  live : List Nat
  deleted : List Nat
  next : Nat
deriving DecidableEq, Repr

/-- The wrapper at an address, if one is alive there. -/
def ClientHeap.wrapperAt (h : ClientHeap) (a : Nat) : Option ClientWrapper :=
  (h.wrappers.find? (fun w => w.1 == a)).map (fun w => w.2)

/-- The heap with the wrapper at address `a` replaced by `w` (or added). -/
def ClientHeap.setWrapper (h : ClientHeap) (a : Nat) (w : ClientWrapper) : ClientHeap :=
  { h with wrappers := (a, w) :: h.wrappers.filter (fun x => x.1 != a) }

/-- The addresses of the wrappers that own the implementation object `p`: `impl_` points
to it and `owner_` is true. -/
def ClientHeap.owners (h : ClientHeap) (p : Nat) : List Nat :=
  (h.wrappers.filter (fun w => w.2.impl_ == p && w.2.owner_)).map (fun w => w.1)

/-- Embedding of the constructor from a configuration (raftclient.cc:8,
synccororeindexer.cc:10) at the address `a`: `impl_(new ...)`, `owner_(true)`. -/
def ClientHeap.construct (h : ClientHeap) (a : Nat) : ClientHeap :=
  { (h.setWrapper a { impl_ := h.next, owner_ := true }) with
    live := h.next :: h.live, next := h.next + 1 }

/-- Embedding of the destructor (raftclient.cc:9-13, synccororeindexer.cc:11-15) of the
wrapper at the address `a`: `if (owner_) delete impl_;`, then the wrapper is gone. -/
def ClientHeap.destroy (h : ClientHeap) (a : Nat) : ClientHeap :=
  match h.wrapperAt a with
  | none => h
  | some w =>
    if w.owner_ = true then
      { h with wrappers := h.wrappers.filter (fun x => x.1 != a),
               live := h.live.filter (fun p => p != w.impl_),
               deleted := w.impl_ :: h.deleted }
    else { h with wrappers := h.wrappers.filter (fun x => x.1 != a) }

/-- Embedding of the move constructor (raftclient.cc:14, synccororeindexer.cc:16-18): a
new wrapper at the address `a` is built from the wrapper `rdx` at the address `b`:
`impl_(rdx.impl_)`, `owner_(rdx.owner_)`, then `rdx.owner_ = false`. -/
def ClientHeap.moveConstruct (h : ClientHeap) (a b : Nat) : ClientHeap :=
  match h.wrapperAt b with
  | none => h
  | some rdx =>
    (h.setWrapper b { rdx with owner_ := false }).setWrapper a
      { impl_ := rdx.impl_, owner_ := rdx.owner_ }

/-- Embedding of the move assignment (raftclient.cc:15-23, synccororeindexer.cc:19-27):
the wrapper at the address `a` is assigned from the wrapper `rdx` at the address `b`:
`if (this != &rdx) { impl_ = rdx.impl_; owner_ = rdx.owner_; rdx.owner_ = false; }`. -/
def ClientHeap.moveAssign (h : ClientHeap) (a b : Nat) : ClientHeap :=
  match h.wrapperAt a, h.wrapperAt b with
  | some _, some rdx =>
    if a ≠ b then
      (h.setWrapper b { rdx with owner_ := false }).setWrapper a
        { impl_ := rdx.impl_, owner_ := rdx.owner_ }
    else h
  | _, _ => h

/-- No wrapper and no implementation object. -/
def ClientHeap.empty : ClientHeap := { wrappers := [], live := [], deleted := [], next := 0 }

/-- An implementation method that is invalidated while the implementation state is `0`
(and moves it to `1`), and afterwards returns ten times the identity of the object it is
called on. -/
def sampleFn : ImplFn Nat Nat where
  name := "GetItemsCount"
  run := fun ns s =>
    if s.impls = 0 then
      (Except.error { code := ErrorCode.errNamespaceInvalidated, what := "invalidated" },
        { s with impls := 1 })
    else (Except.ok (10 * ns), s)

/-- An implementation method that fails with a parameter error once the implementation
state is not `0`. -/
def sampleFailingFn : ImplFn Nat Nat where
  name := "AddIndex"
  run := fun _ s =>
    if s.impls = 0 then
      (Except.error { code := ErrorCode.errNamespaceInvalidated, what := "invalidated" },
        { s with impls := 1 })
    else (Except.error { code := ErrorCode.errParams, what := "bad index" }, s)

/-- While the caller yields, another thread publishes implementation `2` in every facade. -/
def sampleYield : Sys Nat → Sys Nat :=
  fun s => { s with facades := fun _ => { ns_ := 2 } }

/-- Every facade publishes implementation `1`; no call has been made. -/
def sampleWorld : World Nat :=
  { sys := { facades := fun _ => { ns_ := 1 }, impls := 0 }, calls := [] }

/-- A `doRename` that republishes implementation `9` in every facade. -/
def sampleDoRename : DoRename Nat :=
  fun _ _ _ _ _ s => (Except.ok (), { s with facades := fun _ => { ns_ := 9 } })

/-- A clock that answers with a number that depends on the unit, and knows no other unit
than seconds and milliseconds. -/
def sampleClock : String → Except Error Int :=
  fun mode =>
    if mode = "sec" then Except.ok 1700000000
    else if mode = "msec" then Except.ok 1700000000000
    else Except.error { code := ErrorCode.errParams, what := "Unknown parameter" }

/-- An executor on a namespace whose counters are all `41`, with one record pending. -/
def sampleExecutor : FunctionExecutor :=
  { ns_ := { serials := fun _ => 41 },
    replUpdates_ := [UpdateRecord.wal (WALRecord.ofId WALRecType.WalItemUpdate 7 false)] }

/-- The predicate becomes true at the end of round 2, and round 2 is the first one ended
by a notification. -/
def sampleCondVarEnv : CondVarEnv :=
  { predAt := fun i => decide (2 ≤ i), notifiedAt := fun i => decide (2 ≤ i) }

/-- Nobody ever notifies and the predicate never holds. -/
def silentCondVarEnv : CondVarEnv :=
  { predAt := fun _ => false, notifiedAt := fun _ => false }

/-- A `NamespaceImpl::GetName` that answers `items` and touches nothing. -/
def sampleGetName : NamespaceImplPtr → Sys Nat → Except Error String × Sys Nat :=
  fun _ s => (Except.ok "items", s)

/-- A `NamespaceImpl::OnConfigUpdated` that is invalidated while the implementation state
is `0` (and moves it to `1`), and then succeeds; it does not touch the facades. -/
def sampleImplOnConfigUpdated :
    DBConfigProvider → NamespaceImplPtr → Sys Nat → Except Error Unit × Sys Nat :=
  fun _ _ s =>
    if s.impls = 0 then
      (Except.error { code := ErrorCode.errNamespaceInvalidated, what := "invalidated" },
        { s with impls := 1 })
    else (Except.ok (), s)

/-- A provider with thresholds for the namespace `items` only. -/
def sampleProvider : DBConfigProvider :=
  fun name =>
    if name = "items" then
      { startCopyPolicyTxSize := 10000, copyPolicyMultiplier := 5,
        txSizeToAlwaysCopy := 100000 }
    else { startCopyPolicyTxSize := 0, copyPolicyMultiplier := 0, txSizeToAlwaysCopy := 0 }

/-- Thread 1 clones; thread 2 enters `awaitMainNs` while the flag is set and finds the
mutex taken; thread 3 triggers a second clone and finds the mutex taken too. -/
def sampleScheduleCloning : List (ThreadId × Action) :=
  [(1, Action.cloneTrigger), (1, Action.cloneAcquire), (1, Action.cloneBegin),
    (2, Action.awaitEnter), (2, Action.awaitAcquire), (1, Action.cloneBuild 7),
    (3, Action.cloneTrigger), (3, Action.cloneAcquire), (3, Action.cloneBegin)]

/-- The same, continued: thread 1 publishes, clears the flag and releases; thread 2
obtains the mutex. -/
def sampleScheduleWaiting : List (ThreadId × Action) :=
  sampleScheduleCloning ++
    [(1, Action.clonePublish), (1, Action.cloneClear), (1, Action.cloneUnlock),
      (2, Action.awaitAcquire)]

/-- The same, continued: thread 2 returns from `awaitMainNs`; thread 3 gets its turn. -/
def sampleScheduleReturned : List (ThreadId × Action) :=
  sampleScheduleWaiting ++ [(2, Action.awaitReturn), (3, Action.cloneAcquire)]

/-- The state of a sample executor: the flag of its cancellation context and a counter of
the work done by handlers. -/
structure SampleTool where
  cancelled : Bool
  work : Nat
deriving DecidableEq, Repr

/-- Three entries of a command table; the second and the third have the same name up to
case. -/
def sampleCmdsHead : List (commandDefinition SampleTool) :=
  [{ command := "\\help", handler := fun _ s => (Error.ok, { s with work := s.work + 1 }) },
   { command := "\\upsert",
     handler := fun _ s =>
       ({ code := ErrorCode.errParams, what := "bad item" }, { s with work := s.work + 10 }) },
   { command := "\\UPSERT",
     handler := fun _ s => (Error.ok, { s with work := s.work + 100 }) }]

/-- The entry of `select`, whose handler is canceled while it runs. -/
def sampleSelect : commandDefinition SampleTool :=
  { command := "select",
    handler := fun _ s => (Error.ok, { cancelled := true, work := s.work + 1000 }) }

/-- A command table with four entries. -/
def sampleCmds : List (commandDefinition SampleTool) := sampleCmdsHead ++ [sampleSelect]

/-- The first token of a line: the characters before the first blank. -/
def sampleNextToken : String → String :=
  fun line => String.mk (line.data.takeWhile (fun c => c != ' '))

/-- Equality of the lower-case forms. -/
def sampleIequals : String → String → Bool :=
  fun a b => a.data.map Char.toLower == b.data.map Char.toLower

/-- An implementation method that is invalidated on its first `n` calls (it counts them
in the implementation state) and then returns the count. -/
def retryFn (n : Nat) : ImplFn Nat Nat where
  name := "GetItemsCount"
  run := fun _ s =>
    if s.impls < n then
      (Except.error { code := ErrorCode.errNamespaceInvalidated, what := "invalidated" },
        { s with impls := s.impls + 1 })
    else (Except.ok s.impls, s)

/-- A context that can be canceled and is canceled from the check after two rounds on. -/
def sampleLateCanceledContext : WaitContext :=
  { cancelSource := some (fun i => decide (2 ≤ i)) }

/-- A context that can be canceled and never is. -/
def sampleLiveContext : WaitContext := { cancelSource := some (fun _ => false) }

/-- Two wrappers constructed at the addresses 1 and 2, each owning its implementation
object (0 and 1). -/
def sampleTwoClients : ClientHeap := (ClientHeap.empty.construct 1).construct 2

/-- The two wrappers after `a = std::move(b)`, with `a` at the address 1 and `b` at 2. -/
def sampleMoveAssigned : ClientHeap := sampleTwoClients.moveAssign 1 2

theorem isInvalidated_error_iff {α : Type} (e : Error) :
    isInvalidated (Except.error e : Except Error α) = true ↔
      e.code = ErrorCode.errNamespaceInvalidated := by
  simp [isInvalidated]

theorem attemptResult_zero {ι α : Type} (fn : ImplFn ι α) (yield : Sys ι → Sys ι)
    (this : NamespacePtr) (w : World ι) :
    attemptResult fn yield this 0 w = attempt fn this w := rfl

theorem attemptResult_succ {ι α : Type} (fn : ImplFn ι α) (yield : Sys ι → Sys ι)
    (this : NamespacePtr) (i : Nat) (w : World ι) :
    attemptResult fn yield this (i + 1) w =
      attemptResult fn yield this i
        { (attempt fn this w).2 with sys := yield (attempt fn this w).2.sys } := rfl

/-- A non-invalidated outcome of the first attempt is what the wrapper returns. -/
theorem nsFuncWrapper_of_not_invalidated {ι α : Type} (fn : ImplFn ι α)
    (yield : Sys ι → Sys ι) (this : NamespacePtr) (fuel : Nat) (w : World ι)
    (h : isInvalidated (attempt fn this w).1 = false) :
    nsFuncWrapper fn yield this (fuel + 1) w = some (attempt fn this w) := by
  unfold nsFuncWrapper
  rcases hA : attempt fn this w with ⟨o, w1⟩
  rw [hA] at h
  cases o with
  | ok v => rfl
  | error e =>
    have hne : e.code ≠ ErrorCode.errNamespaceInvalidated := by
      intro hc
      have := (isInvalidated_error_iff (α := α) e).2 hc
      simp [this] at h
    simp [hne]

/-- An invalidated first attempt makes the wrapper yield and go round again. -/
theorem nsFuncWrapper_of_invalidated {ι α : Type} (fn : ImplFn ι α)
    (yield : Sys ι → Sys ι) (this : NamespacePtr) (fuel : Nat) (w : World ι)
    (h : isInvalidated (attempt fn this w).1 = true) :
    nsFuncWrapper fn yield this (fuel + 1) w =
      nsFuncWrapper fn yield this fuel
        { (attempt fn this w).2 with sys := yield (attempt fn this w).2.sys } := by
  conv_lhs => unfold nsFuncWrapper
  rcases hA : attempt fn this w with ⟨o, w1⟩
  rw [hA] at h
  cases o with
  | ok v => simp [isInvalidated] at h
  | error e =>
    have hc := (isInvalidated_error_iff (α := α) e).1 h
    simp [hc]

/-- The run of the loop: after `k` invalidated attempts and a last one that is not, the
wrapper returns the result of attempt number `k`, for every fuel above `k`. -/
theorem nsFuncWrapper_run {ι α : Type} (fn : ImplFn ι α) (yield : Sys ι → Sys ι)
    (this : NamespacePtr) (k : Nat) :
    ∀ (w : World ι),
      (∀ i, i < k → isInvalidated (attemptResult fn yield this i w).1 = true) →
      isInvalidated (attemptResult fn yield this k w).1 = false →
      ∀ fuel, k < fuel →
        nsFuncWrapper fn yield this fuel w = some (attemptResult fn yield this k w) := by
  induction k with
  | zero =>
    intro w _ hlast fuel hfuel
    obtain ⟨f, rfl⟩ : ∃ f, fuel = f + 1 := ⟨fuel - 1, by omega⟩
    exact nsFuncWrapper_of_not_invalidated fn yield this f w hlast
  | succ k ih =>
    intro w hinv hlast fuel hfuel
    obtain ⟨f, rfl⟩ : ∃ f, fuel = f + 1 := ⟨fuel - 1, by omega⟩
    have h0 : isInvalidated (attempt fn this w).1 = true := hinv 0 (by omega)
    rw [nsFuncWrapper_of_invalidated fn yield this f w h0, attemptResult_succ]
    apply ih
    · intro i hi
      have := hinv (i + 1) (by omega)
      rwa [attemptResult_succ] at this
    · rwa [attemptResult_succ] at hlast
    · omega

/-- The calls recorded up to and including attempt number `k`: one per attempt, each on
the pointer published when that attempt started. -/
theorem attemptResult_calls {ι α : Type} (fn : ImplFn ι α) (yield : Sys ι → Sys ι)
    (this : NamespacePtr) (k : Nat) :
    ∀ (w : World ι),
      (attemptResult fn yield this k w).2.calls =
        w.calls ++ (List.range (k + 1)).map (fun i =>
          Call.impl fn.name (atomicLoadMainNs this (attemptWorld fn yield this i w).sys)) := by
  induction k with
  | zero => intro w; rfl
  | succ k ih =>
    intro w
    rw [attemptResult_succ, ih, List.range_succ_eq_map (k + 1)]
    simp [attempt, attemptWorld, List.map_map, Function.comp_def]

/-- Whatever the wrapper returns is not an invalidated error. -/
theorem nsFuncWrapper_result_not_invalidated {ι α : Type} (fn : ImplFn ι α)
    (yield : Sys ι → Sys ι) (this : NamespacePtr) (fuel : Nat) :
    ∀ (w : World ι) (res : Except Error α × World ι),
      nsFuncWrapper fn yield this fuel w = some res → isInvalidated res.1 = false := by
  induction fuel with
  | zero => intro w res h; simp [nsFuncWrapper] at h
  | succ f ih =>
    intro w res h
    cases hI : isInvalidated (attempt fn this w).1 with
    | false =>
      rw [nsFuncWrapper_of_not_invalidated fn yield this f w hI] at h
      cases h
      exact hI
    | true =>
      rw [nsFuncWrapper_of_invalidated fn yield this f w hI] at h
      exact ih _ res h

/-- If some attempt is not invalidated, the wrapper returns when given enough fuel. -/
theorem nsFuncWrapper_returns {ι α : Type} (fn : ImplFn ι α) (yield : Sys ι → Sys ι)
    (this : NamespacePtr) (k : Nat) :
    ∀ (w : World ι), isInvalidated (attemptResult fn yield this k w).1 = false →
      ∃ fuel res, fuel ≤ k + 1 ∧ nsFuncWrapper fn yield this fuel w = some res := by
  induction k with
  | zero =>
    intro w h
    exact ⟨1, _, le_refl _, nsFuncWrapper_of_not_invalidated fn yield this 0 w h⟩
  | succ k ih =>
    intro w h
    cases hI : isInvalidated (attempt fn this w).1 with
    | false => exact ⟨1, _, by omega, nsFuncWrapper_of_not_invalidated fn yield this 0 w hI⟩
    | true =>
      rw [attemptResult_succ] at h
      obtain ⟨fuel, res, hle, hres⟩ := ih _ h
      refine ⟨fuel + 1, res, by omega, ?_⟩
      rw [nsFuncWrapper_of_invalidated fn yield this fuel w hI]
      exact hres

/-- C1. For every forwarded operation `fn`, every behaviour of the other threads and every
starting state: whatever `nsFuncWrapper` hands to its caller (returned value or thrown
error) is never an error with code `errNamespaceInvalidated`, whatever the number of
rounds; and as soon as some attempt of the run is not invalidated, the wrapper does hand
over such an outcome. -/
theorem nsFuncWrapper_never_surfaces_invalidated {ι α : Type} (fn : ImplFn ι α)
    (yield : Sys ι → Sys ι) (this : NamespacePtr) (w : World ι) :
    (∀ fuel res, nsFuncWrapper fn yield this fuel w = some res →
        ∀ e, res.1 = Except.error e → e.code ≠ ErrorCode.errNamespaceInvalidated) ∧
    (∀ k, isInvalidated (attemptResult fn yield this k w).1 = false →
        ∃ fuel res, nsFuncWrapper fn yield this fuel w = some res ∧
          isInvalidated res.1 = false) := by
  constructor
  · intro fuel res h e he hc
    have hres := nsFuncWrapper_result_not_invalidated fn yield this fuel w res h
    rw [he, (isInvalidated_error_iff (α := α) e).2 hc] at hres
    cases hres
  · intro k hk
    obtain ⟨fuel, res, _, hres⟩ := nsFuncWrapper_returns fn yield this k w hk
    exact ⟨fuel, res, hres, nsFuncWrapper_result_not_invalidated fn yield this fuel w res hres⟩

/-- C2. If attempt number `k` of a forwarded call is made (the attempts before it were
invalidated) and fails with an error `e` whose code is not `errNamespaceInvalidated`, the
caller receives exactly `e` (same code, same message) in the state that attempt left, and
the wrapper has made `k + 1` calls on the implementation and none after the failing
one. -/
theorem nsFuncWrapper_propagates_other_errors {ι α : Type} (fn : ImplFn ι α)
    (yield : Sys ι → Sys ι) (this : NamespacePtr) (k : Nat) (w : World ι) (e : Error)
    (hinv : ∀ i, i < k → isInvalidated (attemptResult fn yield this i w).1 = true)
    (he : (attemptResult fn yield this k w).1 = Except.error e)
    (hcode : e.code ≠ ErrorCode.errNamespaceInvalidated) :
    ∀ fuel, k < fuel →
      ∃ w1, nsFuncWrapper fn yield this fuel w = some (Except.error e, w1) ∧
        w1 = (attemptResult fn yield this k w).2 ∧
        w1.calls.length = w.calls.length + (k + 1) ∧
        w1.calls.getLast? = some (Call.impl fn.name
          (atomicLoadMainNs this (attemptWorld fn yield this k w).sys)) := by
  intro fuel hfuel
  have hlast : isInvalidated (attemptResult fn yield this k w).1 = false := by
    rw [he]
    cases hI : isInvalidated (Except.error e : Except Error α) with
    | false => rfl
    | true => exact absurd ((isInvalidated_error_iff (α := α) e).1 hI) hcode
  refine ⟨(attemptResult fn yield this k w).2, ?_, rfl, ?_, ?_⟩
  · rw [nsFuncWrapper_run fn yield this k w hinv hlast fuel hfuel, ← he]
  · rw [attemptResult_calls]
    simp
  · rw [attemptResult_calls, List.range_succ]
    simp

/-- C3. For every `k`: if the first `k` attempts fail with `errNamespaceInvalidated` and
attempt `k + 1` (number `k` counted from 0) yields an outcome `r` that is a value or
another error, then with any fuel above `k` the wrapper returns `r`, in the state that
attempt left; it has made exactly `k + 1` calls on the implementation, the one of attempt
number `i` on the pointer loaded from the published pointer of the facade when that
attempt started. -/
theorem nsFuncWrapper_retries_until_valid {ι α : Type} (fn : ImplFn ι α)
    (yield : Sys ι → Sys ι) (this : NamespacePtr) (k : Nat) (w : World ι)
    (r : Except Error α)
    (hinv : ∀ i, i < k → isInvalidated (attemptResult fn yield this i w).1 = true)
    (hr : (attemptResult fn yield this k w).1 = r)
    (hvalid : isInvalidated r = false) :
    ∀ fuel, k < fuel →
      ∃ w1, nsFuncWrapper fn yield this fuel w = some (r, w1) ∧
        w1.sys = (attemptResult fn yield this k w).2.sys ∧
        w1.calls = w.calls ++ (List.range (k + 1)).map (fun i =>
          Call.impl fn.name
            ((attemptWorld fn yield this i w).sys.facades this).ns_) := by
  intro fuel hfuel
  refine ⟨(attemptResult fn yield this k w).2, ?_, rfl, ?_⟩
  · rw [nsFuncWrapper_run fn yield this k w hinv (by rw [hr]; exact hvalid) fuel hfuel, ← hr]
  · exact attemptResult_calls fn yield this k w

/-- Witness of C2: the first attempt is invalidated, the second fails with a parameter
error, which is what the caller gets after two calls. -/
theorem nsFuncWrapper_propagates_other_errors_witness :
    (∀ i, i < 1 →
      isInvalidated (attemptResult sampleFailingFn sampleYield 0 i sampleWorld).1 = true) ∧
    (attemptResult sampleFailingFn sampleYield 0 1 sampleWorld).1 =
      Except.error { code := ErrorCode.errParams, what := "bad index" } ∧
    ∃ w1, nsFuncWrapper sampleFailingFn sampleYield 0 2 sampleWorld =
        some (Except.error { code := ErrorCode.errParams, what := "bad index" }, w1) ∧
      w1 = (attemptResult sampleFailingFn sampleYield 0 1 sampleWorld).2 ∧
      w1.calls.length = sampleWorld.calls.length + (1 + 1) ∧
      w1.calls.getLast? = some (Call.impl sampleFailingFn.name
        (atomicLoadMainNs 0 (attemptWorld sampleFailingFn sampleYield 0 1 sampleWorld).sys)) :=
  ⟨fun i hi => by obtain rfl : i = 0 := by omega
                  rfl,
   rfl,
   nsFuncWrapper_propagates_other_errors sampleFailingFn sampleYield 0 1 sampleWorld
     { code := ErrorCode.errParams, what := "bad index" }
     (fun i hi => by obtain rfl : i = 0 := by omega
                     rfl)
     rfl (by decide) 2 (by decide)⟩

/-- Witness of C3: the first attempt runs on implementation `1` and is invalidated, another
thread publishes implementation `2`, the second attempt runs on `2` and returns `20`. -/
theorem nsFuncWrapper_retries_until_valid_witness :
    (∀ i, i < 1 →
      isInvalidated (attemptResult sampleFn sampleYield 0 i sampleWorld).1 = true) ∧
    (attemptResult sampleFn sampleYield 0 1 sampleWorld).1 = Except.ok 20 ∧
    isInvalidated (Except.ok 20 : Except Error Nat) = false ∧
    ∃ w1, nsFuncWrapper sampleFn sampleYield 0 2 sampleWorld = some (Except.ok 20, w1) ∧
      w1.sys = (attemptResult sampleFn sampleYield 0 1 sampleWorld).2.sys ∧
      w1.calls = sampleWorld.calls ++ (List.range (1 + 1)).map (fun i =>
        Call.impl sampleFn.name
          ((attemptWorld sampleFn sampleYield 0 i sampleWorld).sys.facades 0).ns_) :=
  ⟨fun i hi => by obtain rfl : i = 0 := by omega
                  rfl,
   rfl, rfl,
   nsFuncWrapper_retries_until_valid sampleFn sampleYield 0 1 sampleWorld (Except.ok 20)
     (fun i hi => by obtain rfl : i = 0 := by omega
                     rfl)
     rfl rfl 2 (by decide)⟩

/-! ## Properties of `Rename` -/

/-- C4. `Rename(dst, storagePath, ctx)` with `dst` null or `dst` the facade itself returns
normally and leaves the whole world as it was: no call is recorded (neither `doRename` nor
an implementation operation), and the facade keeps its published pointer and every other
field, for every `doRename`, storage path and context. -/
theorem Rename_null_or_self_is_noop {ι : Type} (doRename : DoRename ι)
    (this : NamespacePtr) (dst : Option NamespacePtr) (storagePath : String)
    (ctx : RdxContext) (w : World ι) (h : dst = none ∨ dst = some this) :
    Namespace.RenameTo doRename this dst storagePath ctx w = (Except.ok (), w) ∧
    (Namespace.RenameTo doRename this dst storagePath ctx w).2.calls = w.calls ∧
    (Namespace.RenameTo doRename this dst storagePath ctx w).2.sys.facades this =
      w.sys.facades this := by
  have hnoop : Namespace.RenameTo doRename this dst storagePath ctx w = (Except.ok (), w) := by
    unfold Namespace.RenameTo
    rcases h with h | h
    · simp [h]
    · simp [h]
  rw [hnoop]
  exact ⟨rfl, rfl, rfl⟩

/-- Witness of C4: renaming facade `3` to itself, with a `doRename` that would republish
another implementation. -/
theorem Rename_null_or_self_is_noop_witness :
    ((some 3 : Option NamespacePtr) = none ∨ (some 3 : Option NamespacePtr) = some 3) ∧
    Namespace.RenameTo sampleDoRename 3 (some 3) "/db" {} sampleWorld =
      (Except.ok (), sampleWorld) ∧
    (Namespace.RenameTo sampleDoRename 3 (some 3) "/db" {} sampleWorld).2.calls =
      sampleWorld.calls ∧
    (Namespace.RenameTo sampleDoRename 3 (some 3) "/db" {} sampleWorld).2.sys.facades 3 =
      sampleWorld.sys.facades 3 :=
  ⟨Or.inr rfl,
   Rename_null_or_self_is_noop sampleDoRename 3 (some 3) "/db" {} sampleWorld (Or.inr rfl)⟩

/-- C5. `Rename(newName, storagePath, ctx)` with an empty `newName` returns normally and
leaves the whole world as it was (no call recorded, published pointer and facade fields
unchanged); with a non-empty `newName` it is exactly one call of `doRename` with a null
destination and that name: one call is recorded, and outcome and state are those of
`doRename(nullptr, newName, storagePath, ctx)`. -/
theorem Rename_by_name_empty_noop_else_doRename_once {ι : Type} (doRename : DoRename ι)
    (this : NamespacePtr) (storagePath : String) (ctx : RdxContext) (w : World ι) :
    Namespace.Rename doRename this "" storagePath ctx w = (Except.ok (), w) ∧
    ∀ newName : String, newName ≠ "" →
      (Namespace.Rename doRename this newName storagePath ctx w).1 =
        (doRename this none newName storagePath ctx w.sys).1 ∧
      (Namespace.Rename doRename this newName storagePath ctx w).2.sys =
        (doRename this none newName storagePath ctx w.sys).2 ∧
      (Namespace.Rename doRename this newName storagePath ctx w).2.calls =
        w.calls ++ [Call.doRename none newName storagePath ctx] := by
  refine ⟨by simp [Namespace.Rename], ?_⟩
  intro newName hne
  simp [Namespace.Rename, hne, callDoRename]

/-! ## Properties of the WAL record model -/

theorem WALRecType.ofCode_code (t : WALRecType) : WALRecType.ofCode t.code = some t := by
  cases t <;> rfl

theorem WALRecType.code_lt (t : WALRecType) : t.code < 20 := by
  cases t <;> decide

theorem getUInt32_putUInt32 (n : Nat) (h : n < 4294967296) (rest : List Byte) :
    getUInt32 (putUInt32 n ++ rest) = some (n, rest) := by
  simp only [putUInt32, getUInt32, List.cons_append, List.nil_append, Fin.ofNat,
    Option.some.injEq, Prod.mk.injEq, and_true]
  omega

theorem getInt32_putInt32 (i : Int) (h : isInt32 i) (rest : List Byte) :
    getInt32 (putInt32 i ++ rest) = some (i, rest) := by
  obtain ⟨hlo, hhi⟩ := h
  have hnn : 0 ≤ i % 4294967296 := Int.emod_nonneg i (by decide)
  have hlt : i % 4294967296 < 4294967296 := Int.emod_lt_of_pos i (by decide)
  have hnat : (i % 4294967296).toNat < 4294967296 := by omega
  unfold getInt32 putInt32
  rw [getUInt32_putUInt32 _ hnat]
  simp only [Option.some.injEq, Prod.mk.injEq, and_true]
  split <;> omega

theorem getVarUint_putVarUint (n : Nat) :
    ∀ rest : List Byte, getVarUint (putVarUint n ++ rest) = some (n, rest) := by
  induction n using Nat.strong_induction_on with
  | _ n ih =>
    intro rest
    rw [putVarUint]
    by_cases hn : n < 128
    · have h1 : n % 256 < 128 := by omega
      have h2 : n % 256 = n := by omega
      simp [hn, getVarUint, Fin.ofNat, h1, h2]
    · have h1 : ¬ (n % 128 + 128) % 256 < 128 := by omega
      have h2 : (n % 128 + 128) % 256 - 128 + 128 * (n / 128) = n := by omega
      simp [hn, getVarUint, Fin.ofNat, h1, ih (n / 128) (by omega), h2]

theorem getVString_putVString (s : string_view) (rest : List Byte) :
    getVString (putVString s ++ rest) = some (s, rest) := by
  unfold getVString putVString
  rw [List.append_assoc, getVarUint_putVarUint]
  simp

/-- Reading the fields of the active variant back from its packed fields. -/
theorem WALPayload.unpack_pack (p : WALPayload) (h : p.inRange) :
    WALPayload.unpack p.variant p.pack = some p := by
  cases p with
  | id i =>
    have := getInt32_putInt32 i h []
    simp only [List.append_nil] at this
    simp [WALPayload.unpack, WALPayload.pack, WALPayload.variant, this]
  | data d =>
    have := getVString_putVString d []
    simp only [List.append_nil] at this
    simp [WALPayload.unpack, WALPayload.pack, WALPayload.variant, this]
  | itemModify c tm mm =>
    have h3 := getInt32_putInt32 mm h.2 []
    simp only [List.append_nil] at h3
    simp [WALPayload.unpack, WALPayload.pack, WALPayload.variant, getVString_putVString,
      getInt32_putInt32 tm h.1, h3]
  | putMeta k v =>
    have := getVString_putVString v []
    simp only [List.append_nil] at this
    simp [WALPayload.unpack, WALPayload.pack, WALPayload.variant, getVString_putVString, this]
  | rawItem i c =>
    have := getVString_putVString c []
    simp only [List.append_nil] at this
    simp [WALPayload.unpack, WALPayload.pack, WALPayload.variant, getInt32_putInt32 i h, this]

/-- What the reading of a variant yields has that variant active. -/
theorem WALPayload.unpack_variant (v : WALVariant) (bs : List Byte) (p : WALPayload)
    (h : WALPayload.unpack v bs = some p) : p.variant = v := by
  cases v <;> simp only [WALPayload.unpack] at h <;>
    (repeat' split at h) <;> first | (cases h; rfl) | cases h

/-- A record read from packed bytes has the variant declared for its kind active. -/
theorem WALRecord.ofPacked_variant (declared : WALRecType → WALVariant) (bs : List Byte)
    (r : WALRecord) (h : WALRecord.ofPacked declared bs = some r) :
    r.payload.variant = declared r.type := by
  match bs, h with
  | k :: f :: rest, h =>
    simp only [WALRecord.ofPacked] at h
    split at h
    · rename_i t _
      split at h
      · rename_i p hp
        cases h
        exact WALPayload.unpack_variant _ _ _ hp
      · cases h
    · cases h
  | [], h => simp [WALRecord.ofPacked] at h
  | [_], h => simp [WALRecord.ofPacked] at h

/-- A constructor-built record has 32-bit `int` fields. -/
theorem WALRecord.Constructible.inRange {r : WALRecord} (h : WALRecord.Constructible r) :
    r.payload.inRange := by
  cases h with
  | ofId t i inTx h => exact h
  | ofData t d inTx => trivial
  | ofRawItem t i d h => exact h
  | ofPutMeta t k v => trivial
  | ofItemModify t c tm mm inTx htm hmm => exact ⟨htm, hmm⟩

/-- Pack, then unpack with a table that declares the active variant for the kind. -/
theorem WALRecord.ofPacked_Pack (declared : WALRecType → WALVariant) (r : WALRecord)
    (hrange : r.payload.inRange) (hv : declared r.type = r.payload.variant) :
    WALRecord.ofPacked declared (PackedWALRecord.Pack r) = some r := by
  obtain ⟨t, p, inTx⟩ := r
  have hcode : (Fin.ofNat t.code : Fin 256).val = t.code := by
    have := WALRecType.code_lt t
    simp only [Fin.ofNat]
    omega
  simp only at hv hrange
  simp only [PackedWALRecord.Pack, WALRecord.Pack, List.nil_append, WALRecord.ofPacked, hcode,
    WALRecType.ofCode_code, hv, WALPayload.unpack_pack p hrange]
  cases inTx <;> simp [Fin.ofNat]

/-- In the model of the packed form, for an unpacking constructor that reads the variant
`declared` gives for the kind: a record built by a value constructor comes back from its
packed bytes exactly when its active variant is the one read for its kind. -/
theorem WALRecord.ofPacked_Pack_iff (declared : WALRecType → WALVariant) (r : WALRecord)
    (hbuilt : WALRecord.Constructible r) :
    WALRecord.ofPacked declared (PackedWALRecord.Pack r) = some r ↔
      declared r.type = r.payload.variant := by
  constructor
  · intro h
    exact (WALRecord.ofPacked_variant declared _ _ h).symm
  · intro h
    exact WALRecord.ofPacked_Pack declared r hbuilt.inRange h

/-- In the model of the packed form, the bytes carry no mark of the variant:
`WALRecord(WalIndexAdd, data)` with the three bytes 1, 2, 3 and
`WALRecord(WalIndexAdd, IdType(50462979))` have the same packed bytes, so no function of
the bytes returns both. -/
theorem PackedWALRecord.Pack_same_bytes :
    PackedWALRecord.Pack (WALRecord.ofData WALRecType.WalIndexAdd [1, 2, 3] false) =
      PackedWALRecord.Pack (WALRecord.ofId WALRecType.WalIndexAdd 50462979 false) ∧
    WALRecord.ofData WALRecType.WalIndexAdd [1, 2, 3] false ≠
      WALRecord.ofId WALRecType.WalIndexAdd 50462979 false := by
  refine ⟨?_, by simp [WALRecord.ofData, WALRecord.ofId]⟩
  have hlen : putVarUint 3 = [3] := by
    rw [putVarUint]
    rfl
  simp only [PackedWALRecord.Pack, WALRecord.Pack, WALRecord.ofData, WALRecord.ofId,
    WALPayload.pack, putVString, putInt32, putUInt32, List.length_cons, List.length_nil,
    List.nil_append, hlen]
  decide

/-- C7, as amended. The variant that a value constructor initialises is fixed by the
constructor alone, whatever kind it is given: `id` for (type, id, inTx), `data` for
(type, data, inTx), `rawItem` for (type, id, data), `putMeta` for (type, key, value),
`itemModify` for (type, cjson, tmVersion, modifyMode, inTx). Hence kind and active variant
agree exactly when the kind passed declares that variant: `WalRawItem` for the third,
`WalPutMeta` for the fourth, `WalItemModify` for the fifth, and any other kind than these
three for the first two. -/
theorem constructor_variant_fixed_by_shape (t : WALRecType) (i tm mm : Int)
    (d k v c : string_view) (inTx : Bool) :
    ((WALRecord.ofId t i inTx).payload.variant = WALVariant.id ∧
     (WALRecord.ofData t d inTx).payload.variant = WALVariant.data ∧
     (WALRecord.ofRawItem t i d).payload.variant = WALVariant.rawItem ∧
     (WALRecord.ofPutMeta t k v).payload.variant = WALVariant.putMeta ∧
     (WALRecord.ofItemModify t c tm mm inTx).payload.variant = WALVariant.itemModify) ∧
    (variantDeclaredFor (WALRecord.ofId t i inTx).type
        (WALRecord.ofId t i inTx).payload.variant = true ↔
      t ≠ WALRecType.WalItemModify ∧ t ≠ WALRecType.WalPutMeta ∧
        t ≠ WALRecType.WalRawItem) ∧
    (variantDeclaredFor (WALRecord.ofData t d inTx).type
        (WALRecord.ofData t d inTx).payload.variant = true ↔
      t ≠ WALRecType.WalItemModify ∧ t ≠ WALRecType.WalPutMeta ∧
        t ≠ WALRecType.WalRawItem) ∧
    (variantDeclaredFor (WALRecord.ofRawItem t i d).type
        (WALRecord.ofRawItem t i d).payload.variant = true ↔ t = WALRecType.WalRawItem) ∧
    (variantDeclaredFor (WALRecord.ofPutMeta t k v).type
        (WALRecord.ofPutMeta t k v).payload.variant = true ↔ t = WALRecType.WalPutMeta) ∧
    (variantDeclaredFor (WALRecord.ofItemModify t c tm mm inTx).type
        (WALRecord.ofItemModify t c tm mm inTx).payload.variant = true ↔
      t = WALRecType.WalItemModify) := by
  refine ⟨⟨rfl, rfl, rfl, rfl, rfl⟩, ?_, ?_, ?_, ?_, ?_⟩ <;>
    cases t <;>
    simp [variantDeclaredFor, WALRecord.ofId, WALRecord.ofData, WALRecord.ofRawItem,
      WALRecord.ofPutMeta, WALRecord.ofItemModify, WALPayload.variant]

/-- C7 as stated fails: `WALRecord(WalPutMeta, IdType(0), false)` is a constructor call
that yields a record of kind `WalPutMeta` whose active variant is `id`, not `putMeta`. -/
theorem constructor_kind_variant_can_disagree :
    WALRecord.Constructible (WALRecord.ofId WALRecType.WalPutMeta 0 false) ∧
    (WALRecord.ofId WALRecType.WalPutMeta 0 false).type = WALRecType.WalPutMeta ∧
    (WALRecord.ofId WALRecType.WalPutMeta 0 false).payload.variant = WALVariant.id ∧
    variantDeclaredFor (WALRecord.ofId WALRecType.WalPutMeta 0 false).type
      (WALRecord.ofId WALRecType.WalPutMeta 0 false).payload.variant = false :=
  ⟨WALRecord.Constructible.ofId _ _ _ (by decide), rfl, rfl, rfl⟩

/-! ## Properties of the computed-value executor -/

/-- With a function name that is neither `now` nor `serial`, `Execute` throws `errParams`
with the text `Unknown function ` followed by `funcData.field`, and changes nothing. -/
theorem Execute_unknown_function (getTimeNow : String → Except Error Int)
    (self : FunctionExecutor) (funcData : SelectFuncStruct)
    (hnow : funcData.funcName ≠ "now") (hserial : funcData.funcName ≠ "serial") :
    FunctionExecutor.Execute getTimeNow self funcData =
      (Except.error { code := ErrorCode.errParams,
                      what := "Unknown function " ++ funcData.field }, self) := by
  simp [FunctionExecutor.Execute, hnow, hserial]

/-- C8, the code at a failing input: for the descriptor with `funcName = "foo"` and
`field = "id"`, `Execute` throws `errParams` with the message `Unknown function id`,
which names the field and does not contain the function name `foo`. -/
theorem Execute_unknown_function_message_names_field :
    (FunctionExecutor.Execute sampleClock sampleExecutor
        { funcName := "foo", field := "id", funcArgs := [] }).1 =
      Except.error { code := ErrorCode.errParams, what := "Unknown function id" } ∧
    containsStr "Unknown function id" "id" ∧
    ¬ containsStr "Unknown function id" "foo" := by
  refine ⟨?_, by decide, by decide⟩
  rw [Execute_unknown_function _ _ _ (by decide) (by decide)]
  rfl

/-- C9. Executing `serial(field)` twice in a row on the same namespace, with nothing in
between, returns two values `v` and `v + 1`, and leaves the pending batch equal to the
batch before followed by two records, in that order, whose captured counter values are
`v` and `v + 1`; the records already in the batch keep their positions. -/
theorem serial_twice_consecutive (getTimeNow : String → Except Error Int)
    (self : FunctionExecutor) (funcData : SelectFuncStruct)
    (hserial : funcData.funcName = "serial") :
    ∃ (v : Int) (rec1 rec2 : UpdateRecord),
      (FunctionExecutor.Execute getTimeNow self funcData).1 = Except.ok (Variant.int64 v) ∧
      (FunctionExecutor.Execute getTimeNow
          (FunctionExecutor.Execute getTimeNow self funcData).2 funcData).1 =
        Except.ok (Variant.int64 (v + 1)) ∧
      (FunctionExecutor.Execute getTimeNow
          (FunctionExecutor.Execute getTimeNow self funcData).2 funcData).2.replUpdates_ =
        self.replUpdates_ ++ [rec1, rec2] ∧
      rec1.capturedCounter = some v ∧ rec2.capturedCounter = some (v + 1) ∧
      ∀ j, j < self.replUpdates_.length →
        (FunctionExecutor.Execute getTimeNow
          (FunctionExecutor.Execute getTimeNow self funcData).2 funcData).2.replUpdates_[j]? =
          self.replUpdates_[j]? := by
  have hnow : funcData.funcName ≠ "now" := by rw [hserial]; decide
  refine ⟨self.ns_.serials funcData.field + 1,
    UpdateRecord.counterUpdate funcData.field (self.ns_.serials funcData.field + 1),
    UpdateRecord.counterUpdate funcData.field (self.ns_.serials funcData.field + 1 + 1),
    ?_, ?_, ?_, rfl, rfl, ?_⟩
  · simp [FunctionExecutor.Execute, hnow, hserial, NamespaceImpl.GetSerial]
  · simp [FunctionExecutor.Execute, hnow, hserial, NamespaceImpl.GetSerial]
  · simp [FunctionExecutor.Execute, hnow, hserial, NamespaceImpl.GetSerial]
  · intro j hj
    simp [FunctionExecutor.Execute, hnow, hserial, NamespaceImpl.GetSerial,
      List.getElem?_append_left, hj]

/-- Witness of C9: on a namespace whose counters are `41`, with one record pending. -/
theorem serial_twice_consecutive_witness :
    (({ funcName := "serial", field := "id", funcArgs := [] } : SelectFuncStruct).funcName =
      "serial") ∧
    ∃ (v : Int) (rec1 rec2 : UpdateRecord),
      (FunctionExecutor.Execute sampleClock sampleExecutor
          { funcName := "serial", field := "id", funcArgs := [] }).1 =
        Except.ok (Variant.int64 v) ∧
      (FunctionExecutor.Execute sampleClock
          (FunctionExecutor.Execute sampleClock sampleExecutor
            { funcName := "serial", field := "id", funcArgs := [] }).2
          { funcName := "serial", field := "id", funcArgs := [] }).1 =
        Except.ok (Variant.int64 (v + 1)) ∧
      (FunctionExecutor.Execute sampleClock
          (FunctionExecutor.Execute sampleClock sampleExecutor
            { funcName := "serial", field := "id", funcArgs := [] }).2
          { funcName := "serial", field := "id", funcArgs := [] }).2.replUpdates_ =
        sampleExecutor.replUpdates_ ++ [rec1, rec2] ∧
      rec1.capturedCounter = some v ∧ rec2.capturedCounter = some (v + 1) ∧
      ∀ j, j < sampleExecutor.replUpdates_.length →
        (FunctionExecutor.Execute sampleClock
          (FunctionExecutor.Execute sampleClock sampleExecutor
            { funcName := "serial", field := "id", funcArgs := [] }).2
          { funcName := "serial", field := "id", funcArgs := [] }).2.replUpdates_[j]? =
          sampleExecutor.replUpdates_[j]? :=
  ⟨rfl, serial_twice_consecutive sampleClock sampleExecutor
    { funcName := "serial", field := "id", funcArgs := [] } rfl⟩

/-- C10. For a `now` call, `Execute` returns what `getTimeNow` answers for the unit
`nowMode`, and leaves the executor as it was; that unit is `"sec"` when the argument list
is empty or its first argument is the empty string, and is the first argument otherwise,
whatever the later arguments are. -/
theorem now_unit_defaults_to_sec (getTimeNow : String → Except Error Int)
    (self : FunctionExecutor) (funcData : SelectFuncStruct)
    (hnow : funcData.funcName = "now") :
    FunctionExecutor.Execute getTimeNow self funcData =
      ((getTimeNow (FunctionExecutor.nowMode funcData)).map Variant.int64, self) ∧
    (funcData.funcArgs = [] → FunctionExecutor.nowMode funcData = "sec") ∧
    (∀ rest, funcData.funcArgs = "" :: rest → FunctionExecutor.nowMode funcData = "sec") ∧
    (∀ a rest, a ≠ "" → funcData.funcArgs = a :: rest →
      FunctionExecutor.nowMode funcData = a) := by
  refine ⟨by simp [FunctionExecutor.Execute, hnow], ?_, ?_, ?_⟩
  · intro h
    simp [FunctionExecutor.nowMode, h]
  · intro rest h
    simp [FunctionExecutor.nowMode, h]
  · intro a rest ha h
    simp [FunctionExecutor.nowMode, h, ha]

/-- Witness of C10: `now("msec", "")` asks the clock for milliseconds. -/
theorem now_unit_defaults_to_sec_witness :
    (({ funcName := "now", field := "ts", funcArgs := ["msec", ""] } :
      SelectFuncStruct).funcName = "now") ∧
    FunctionExecutor.nowMode { funcName := "now", field := "ts", funcArgs := ["msec", ""] } =
      "msec" ∧
    (FunctionExecutor.Execute sampleClock sampleExecutor
        { funcName := "now", field := "ts", funcArgs := ["msec", ""] }).1 =
      Except.ok (Variant.int64 1700000000000) :=
  ⟨rfl,
   (now_unit_defaults_to_sec sampleClock sampleExecutor
      { funcName := "now", field := "ts", funcArgs := ["msec", ""] } rfl).2.2.2
      "msec" [""] (by decide) rfl,
   by rw [(now_unit_defaults_to_sec sampleClock sampleExecutor
        { funcName := "now", field := "ts", funcArgs := ["msec", ""] } rfl).1]
      rfl⟩

/-- C11. Executing `now`, with any arguments, or a function whose name is unknown, leaves
the executor as it was: the pending replication batch is exactly the one before, the
namespace is the one before, and the outcome is the same on every other namespace and
batch (no answer of a namespace operation enters it). -/
theorem Execute_now_or_unknown_has_no_side_effect (getTimeNow : String → Except Error Int)
    (self : FunctionExecutor) (funcData : SelectFuncStruct)
    (h : funcData.funcName = "now" ∨
      (funcData.funcName ≠ "now" ∧ funcData.funcName ≠ "serial")) :
    (FunctionExecutor.Execute getTimeNow self funcData).2.replUpdates_ = self.replUpdates_ ∧
    (FunctionExecutor.Execute getTimeNow self funcData).2 = self ∧
    ∀ other : FunctionExecutor,
      (FunctionExecutor.Execute getTimeNow other funcData).1 =
        (FunctionExecutor.Execute getTimeNow self funcData).1 := by
  rcases h with h | ⟨h1, h2⟩
  · simp [FunctionExecutor.Execute, h]
  · simp [FunctionExecutor.Execute, h1, h2]

/-- Witness of C11: `now("msec")` on an executor with one record pending. -/
theorem Execute_now_or_unknown_has_no_side_effect_witness :
    (({ funcName := "now", field := "ts", funcArgs := ["msec"] } :
        SelectFuncStruct).funcName = "now" ∨
      (({ funcName := "now", field := "ts", funcArgs := ["msec"] } :
          SelectFuncStruct).funcName ≠ "now" ∧
        ({ funcName := "now", field := "ts", funcArgs := ["msec"] } :
          SelectFuncStruct).funcName ≠ "serial")) ∧
    (FunctionExecutor.Execute sampleClock sampleExecutor
        { funcName := "now", field := "ts", funcArgs := ["msec"] }).2.replUpdates_ =
      [UpdateRecord.wal (WALRecord.ofId WALRecType.WalItemUpdate 7 false)] :=
  ⟨Or.inl rfl,
   (Execute_now_or_unknown_has_no_side_effect sampleClock sampleExecutor
      { funcName := "now", field := "ts", funcArgs := ["msec"] } (Or.inl rfl)).1⟩

/-- C13. `BackgroundRoutine` while a clone is in progress (flag set on entry) returns at
once with the world as it was: no call on the implementation is recorded and the facade
is unchanged. With the flag clear it is the forwarded call through `nsFuncWrapper`, whose
first attempt runs on the implementation published on entry. -/
theorem BackgroundRoutine_skipped_while_clone_in_progress {ι : Type}
    (implBackgroundRoutine : NamespaceImplPtr → Sys ι → Except Error Unit × Sys ι)
    (yield : Sys ι → Sys ι) (this : NamespacePtr) (fuel : Nat) (w : World ι) :
    ((w.sys.facades this).hasCopy_ = true →
      Namespace.BackgroundRoutine implBackgroundRoutine yield this fuel w =
        some (Except.ok (), w)) ∧
    ((w.sys.facades this).hasCopy_ = false →
      Namespace.BackgroundRoutine implBackgroundRoutine yield this fuel w =
        nsFuncWrapper { name := "BackgroundRoutine", run := implBackgroundRoutine } yield
          this fuel w ∧
      (attempt { name := "BackgroundRoutine", run := implBackgroundRoutine } this w).2.calls =
        w.calls ++ [Call.impl "BackgroundRoutine" (w.sys.facades this).ns_]) := by
  constructor
  · intro h
    simp [Namespace.BackgroundRoutine, h]
  · intro h
    refine ⟨by simp [Namespace.BackgroundRoutine, h], rfl⟩

/-- C17. The kind tag has exactly the twenty kinds of the list `WALRecType.all` (every
kind is in it, none twice), and their numeric codes, in the order of the list, are
0, 1, ..., 19; so the codes are pairwise distinct. -/
theorem WALRecType_codes_are_zero_to_nineteen :
    WALRecType.all.map WALRecType.code =
      [0, 1, 2, 3, 4, 5, 6, 7, 8, 9, 10, 11, 12, 13, 14, 15, 16, 17, 18, 19] ∧
    WALRecType.all.length = 20 ∧
    WALRecType.all.Nodup ∧
    (∀ t : WALRecType, t ∈ WALRecType.all) ∧
    (∀ t u : WALRecType, t.code = u.code → t = u) ∧
    (∀ t : WALRecType, t.code < 20) := by
  refine ⟨rfl, rfl, by decide, ?_, ?_, WALRecType.code_lt⟩
  · intro t
    cases t <;> decide
  · intro t u h
    have := congrArg WALRecType.ofCode h
    rw [WALRecType.ofCode_code, WALRecType.ofCode_code] at this
    exact Option.some.inj this

/-- C18. Each value constructor stores the kind and its arguments unchanged in the fields
of its own variant; the in-transaction flag is the `inTx` argument where there is one, and
`false` for the put-meta and raw-item constructors and wherever `inTx` is left to its
default; the default-constructed record has kind `WalEmpty`, id 0, and is not in a
transaction. -/
theorem constructors_store_arguments (t : WALRecType) (i tm mm : Int)
    (d k v c : string_view) (inTx : Bool) :
    (WALRecord.ofId t i inTx =
      { type := t, payload := WALPayload.id i, inTransaction := inTx }) ∧
    (WALRecord.ofData t d inTx =
      { type := t, payload := WALPayload.data d, inTransaction := inTx }) ∧
    (WALRecord.ofRawItem t i d =
      { type := t, payload := WALPayload.rawItem i d, inTransaction := false }) ∧
    (WALRecord.ofPutMeta t k v =
      { type := t, payload := WALPayload.putMeta k v, inTransaction := false }) ∧
    (WALRecord.ofItemModify t c tm mm inTx =
      { type := t, payload := WALPayload.itemModify c tm mm, inTransaction := inTx }) ∧
    ((WALRecord.ofId t i).inTransaction = false ∧ (WALRecord.ofData t d).inTransaction = false ∧
      (WALRecord.ofItemModify t c tm mm).inTransaction = false) ∧
    (WALRecord.ofId t = { type := t, payload := WALPayload.id 0, inTransaction := false }) ∧
    ((WALRecord.ofId).type = WALRecType.WalEmpty ∧ (WALRecord.ofId).payload = WALPayload.id 0 ∧
      (WALRecord.ofId).inTransaction = false) :=
  ⟨rfl, rfl, rfl, rfl, rfl, ⟨rfl, rfl, rfl⟩, rfl, ⟨rfl, rfl, rfl⟩⟩

/-! ## Properties of the enumeration options -/

/-- The low three bits of a word after `setFlag`. -/
theorem setFlag_low3 (x k : Nat) : setFlag x k % 8 = (x % 8 ||| k % 8) := by
  unfold setFlag
  apply Nat.eq_of_testBit_eq
  intro i
  have h8 : (8 : Nat) = 2 ^ 3 := by norm_num
  have h16 : (65536 : Nat) = 2 ^ 16 := by norm_num
  rw [h8, h16]
  simp only [Nat.testBit_mod_two_pow, Nat.testBit_or]
  by_cases h : i < 3
  · have : i < 16 := by omega
    simp [h, this]
  · simp [h]

/-- The low three bits of a word after `clearFlag`. -/
theorem clearFlag_low3 (x k : Nat) :
    clearFlag x k % 8 = (x % 8 &&& (4294967295 - k) % 8) := by
  unfold clearFlag
  apply Nat.eq_of_testBit_eq
  intro i
  have h8 : (8 : Nat) = 2 ^ 3 := by norm_num
  have h16 : (65536 : Nat) = 2 ^ 16 := by norm_num
  rw [h8, h16]
  simp only [Nat.testBit_mod_two_pow, Nat.testBit_and]
  by_cases h : i < 3
  · have : i < 16 := by omega
    simp [h, this]
  · simp [h]

/-- A test against a flag below 8 looks at the low three bits only. -/
theorem and_flag_low3 (x k : Nat) (hk : k < 8) : x &&& k = (x % 8 &&& k) := by
  apply Nat.eq_of_testBit_eq
  intro i
  have h8 : (8 : Nat) = 2 ^ 3 := by norm_num
  rw [h8]
  simp only [Nat.testBit_mod_two_pow, Nat.testBit_and]
  by_cases h : i < 3
  · simp [h]
  · have : k.testBit i = false := by
      apply Nat.testBit_lt_two_pow
      calc k < 8 := hk
        _ = 2 ^ 3 := by norm_num
        _ ≤ 2 ^ i := Nat.pow_le_pow_right (by norm_num) (by omega)
    simp [h, this]

/-- Setting or clearing the bits of `k`, then testing them, for the four enumerators. -/
theorem flag_set_then_test (x k : Nat) (v : Bool)
    (hk : k = 1 ∨ k = 2 ∨ k = 4 ∨ k = 5) :
    (((if v = true then setFlag x k else clearFlag x k) &&& k) != 0) = v := by
  have hlt : k < 8 := by omega
  have hx : x % 8 < 8 := Nat.mod_lt _ (by norm_num)
  rw [and_flag_low3 _ k hlt]
  cases v
  · simp only [Bool.false_eq_true, if_false]
    rw [clearFlag_low3]
    rcases hk with rfl | rfl | rfl | rfl <;> interval_cases (x % 8) <;> decide
  · simp only [if_true]
    rw [setFlag_low3]
    rcases hk with rfl | rfl | rfl | rfl <;> interval_cases (x % 8) <;> decide

/-- C19. For each of the four options, whatever the options were before and whatever the
boolean `v`: after the setter is called with `v`, the getter of the same option returns
`v`. A default-constructed `EnumNamespacesOpts` has all four getters false, and a setter
called with no argument sets its option to true. -/
theorem setter_then_own_getter (o : EnumNamespacesOpts) (v : Bool) :
    ((o.WithClosed v).IsWithClosed = v ∧ (o.OnlyNames v).IsOnlyNames = v ∧
      (o.HideSystem v).IsHideSystem = v ∧ (o.HideTemporary v).IsHideTemporary = v) ∧
    (({} : EnumNamespacesOpts).IsWithClosed = false ∧
      ({} : EnumNamespacesOpts).IsOnlyNames = false ∧
      ({} : EnumNamespacesOpts).IsHideSystem = false ∧
      ({} : EnumNamespacesOpts).IsHideTemporary = false) ∧
    (o.WithClosed.IsWithClosed = true ∧ o.OnlyNames.IsOnlyNames = true ∧
      o.HideSystem.IsHideSystem = true ∧ o.HideTemporary.IsHideTemporary = true) := by
  have key : ∀ w : Bool,
      (o.WithClosed w).IsWithClosed = w ∧ (o.OnlyNames w).IsOnlyNames = w ∧
      (o.HideSystem w).IsHideSystem = w ∧ (o.HideTemporary w).IsHideTemporary = w := by
    intro w
    refine ⟨?_, ?_, ?_, ?_⟩
    · exact flag_set_then_test o.options_ 1 w (by simp)
    · exact flag_set_then_test o.options_ 2 w (by simp)
    · exact flag_set_then_test o.options_ 4 w (by simp)
    · exact flag_set_then_test o.options_ 5 w (by simp)
  exact ⟨key v, ⟨rfl, rfl, rfl, rfl⟩, key true⟩

/-- C20, the code at failing inputs. On default-constructed options, `HideTemporary(true)`
makes `IsWithClosed` and `IsHideSystem` return true; `WithClosed(true)` alone, and
`HideSystem(true)` alone, make `IsHideTemporary` return true although `HideTemporary` was
never called; and `HideTemporary(false)` after `WithClosed(true)` and `HideSystem(true)`
switches both of them off. The enumerator `kEnumNamespacesHideTemporary = 5` shares its
bits with the enumerators 1 and 4. -/
theorem HideTemporary_overlaps_WithClosed_and_HideSystem :
    ({} : EnumNamespacesOpts).IsWithClosed = false ∧
    (({} : EnumNamespacesOpts).HideTemporary true).IsWithClosed = true ∧
    ({} : EnumNamespacesOpts).IsHideSystem = false ∧
    (({} : EnumNamespacesOpts).HideTemporary true).IsHideSystem = true ∧
    ({} : EnumNamespacesOpts).IsHideTemporary = false ∧
    (({} : EnumNamespacesOpts).WithClosed true).IsHideTemporary = true ∧
    (({} : EnumNamespacesOpts).HideSystem true).IsHideTemporary = true ∧
    ((({} : EnumNamespacesOpts).WithClosed true).HideSystem true).IsWithClosed = true ∧
    (((({} : EnumNamespacesOpts).WithClosed true).HideSystem true).HideTemporary
      false).IsWithClosed = false ∧
    (((({} : EnumNamespacesOpts).WithClosed true).HideSystem true).HideTemporary
      false).IsHideSystem = false := by
  decide

/-! ## Properties of `contexted_cond_var` -/

/-- When the forwarded method and the other threads leave the facade `this` untouched,
so does the wrapper, and every attempt it records is on the pointer published on
entry. -/
theorem nsFuncWrapper_frame {ι α : Type} (fn : ImplFn ι α) (yield : Sys ι → Sys ι)
    (this : NamespacePtr)
    (hfn : ∀ ns s, (fn.run ns s).2.facades this = s.facades this)
    (hyield : ∀ s, (yield s).facades this = s.facades this) (fuel : Nat) :
    ∀ (w : World ι) (res : Except Error α × World ι),
      nsFuncWrapper fn yield this fuel w = some res →
      res.2.sys.facades this = w.sys.facades this ∧
      ∃ n, res.2.calls =
        w.calls ++ List.replicate (n + 1) (Call.impl fn.name (w.sys.facades this).ns_) := by
  induction fuel with
  | zero => intro w res h; simp [nsFuncWrapper] at h
  | succ f ih =>
    intro w res h
    cases hI : isInvalidated (attempt fn this w).1 with
    | false =>
      rw [nsFuncWrapper_of_not_invalidated fn yield this f w hI] at h
      cases h
      exact ⟨hfn _ _, 0, rfl⟩
    | true =>
      rw [nsFuncWrapper_of_invalidated fn yield this f w hI] at h
      obtain ⟨h1, n, h2⟩ := ih _ res h
      have hfac : (yield (attempt fn this w).2.sys).facades this = w.sys.facades this := by
        rw [hyield]
        exact hfn _ _
      simp only at h1 h2
      rw [hfac] at h1 h2
      refine ⟨h1, n + 1, ?_⟩
      rw [h2]
      simp [attempt, atomicLoadMainNs, List.replicate_succ]

/-- C15. Suppose `OnConfigUpdated(provider, ctx)` returns normally, in a run where the two
implementation methods and the other threads leave the facade alone. Then `GetName`
returned some name, the current name of the namespace, and after the call the three
clone-trigger thresholds of the facade are the values the provider gives for that name;
the implementation's `OnConfigUpdated` was run with the same provider, on the published
implementation, as the last call; and the published pointer, the pending clone and the
clone-in-progress flag are what they were. -/
theorem OnConfigUpdated_rereads_thresholds {ι : Type}
    (implGetName : NamespaceImplPtr → Sys ι → Except Error String × Sys ι)
    (implOnConfigUpdated :
      DBConfigProvider → NamespaceImplPtr → Sys ι → Except Error Unit × Sys ι)
    (yield : Sys ι → Sys ι) (this : NamespacePtr) (configProvider : DBConfigProvider)
    (fuel : Nat) (w w1 : World ι)
    (hreturns : Namespace.OnConfigUpdated implGetName implOnConfigUpdated yield this
      configProvider fuel w = some (Except.ok (), w1))
    (hGetName : ∀ ns s, (implGetName ns s).2.facades this = s.facades this)
    (hImpl : ∀ ns s, (implOnConfigUpdated configProvider ns s).2.facades this =
      s.facades this)
    (hyield : ∀ s, (yield s).facades this = s.facades this) :
    ∃ (name : String) (wName : World ι),
      Namespace.GetName implGetName yield this fuel w = some (Except.ok name, wName) ∧
      (w1.sys.facades this).startCopyPolicyTxSize_ =
        (configProvider name).startCopyPolicyTxSize ∧
      (w1.sys.facades this).copyPolicyMultiplier_ =
        (configProvider name).copyPolicyMultiplier ∧
      (w1.sys.facades this).txSizeToAlwaysCopy_ =
        (configProvider name).txSizeToAlwaysCopy ∧
      (∃ w2 : World ι,
        nsFuncWrapper { name := "OnConfigUpdated", run := implOnConfigUpdated configProvider }
          yield this fuel w2 = some (Except.ok (), w1)) ∧
      w1.calls.getLast? = some (Call.impl "OnConfigUpdated" (w.sys.facades this).ns_) ∧
      (w1.sys.facades this).ns_ = (w.sys.facades this).ns_ ∧
      (w1.sys.facades this).nsCopy_ = (w.sys.facades this).nsCopy_ ∧
      (w1.sys.facades this).hasCopy_ = (w.sys.facades this).hasCopy_ := by
  unfold Namespace.OnConfigUpdated at hreturns
  cases hG : Namespace.GetName implGetName yield this fuel w with
  | none => rw [hG] at hreturns; cases hreturns
  | some r =>
    obtain ⟨o, wName⟩ := r
    cases o with
    | error e => rw [hG] at hreturns; cases hreturns
    | ok name =>
      rw [hG] at hreturns
      simp only at hreturns
      have hframe1 := nsFuncWrapper_frame { name := "GetName", run := implGetName } yield this
        hGetName hyield fuel w _ hG
      have hframe2 := nsFuncWrapper_frame
        { name := "OnConfigUpdated", run := implOnConfigUpdated configProvider } yield this
        hImpl hyield fuel _ _ hreturns
      obtain ⟨hf1, _⟩ := hframe1
      obtain ⟨hf2, n, hcalls⟩ := hframe2
      simp only [Sys.updateFacade, if_true] at hf2 hcalls
      simp only at hf1
      refine ⟨name, wName, rfl, ?_, ?_, ?_, ⟨_, hreturns⟩, ?_, ?_, ?_, ?_⟩
      · rw [hf2]
      · rw [hf2]
      · rw [hf2]
      · rw [hcalls, hf1]
        simp [List.replicate_succ', List.getLast?_append]
      · rw [hf2, hf1]
      · rw [hf2, hf1]
      · rw [hf2, hf1]

/-- Witness of C15: `GetName` answers `items`, the first attempt of the implementation's
`OnConfigUpdated` is invalidated, the second succeeds. -/
theorem OnConfigUpdated_rereads_thresholds_witness :
    ∃ w1 : World Nat,
      Namespace.OnConfigUpdated sampleGetName sampleImplOnConfigUpdated id 0 sampleProvider 2
        sampleWorld = some (Except.ok (), w1) ∧
      (w1.sys.facades 0).startCopyPolicyTxSize_ = 10000 ∧
      (w1.sys.facades 0).copyPolicyMultiplier_ = 5 ∧
      (w1.sys.facades 0).txSizeToAlwaysCopy_ = 100000 ∧
      (w1.sys.facades 0).ns_ = 1 ∧
      w1.calls = [Call.impl "GetName" 1, Call.impl "OnConfigUpdated" 1,
        Call.impl "OnConfigUpdated" 1] :=
  have hrun : Namespace.OnConfigUpdated sampleGetName sampleImplOnConfigUpdated id 0
      sampleProvider 2 sampleWorld = some (Except.ok (), _) := rfl
  have h := OnConfigUpdated_rereads_thresholds sampleGetName sampleImplOnConfigUpdated id 0
    sampleProvider 2 sampleWorld _ hrun (fun _ _ => rfl)
    (fun _ s => by unfold sampleImplOnConfigUpdated; split <;> rfl) (fun _ => rfl)
  ⟨_, hrun, by
    obtain ⟨name, wName, hname, h1, h2, h3, _⟩ := h
    have hn : name = "items" := by
      have : Namespace.GetName sampleGetName id 0 2 sampleWorld =
          some (Except.ok "items", _) := rfl
      rw [this] at hname
      cases hname
      rfl
    subst hn
    exact ⟨h1, h2, h3, rfl, rfl⟩⟩

/-! ## Properties of the facade under concurrent callers -/

theorem Pc.holdsMtx_of_cloning (p : Pc) (h : p.cloning = true) : p.holdsMtx = true := by
  cases p <;> first | rfl | cases h

theorem FacadeState.Inv_init (ns : NamespaceImplPtr) : (FacadeState.init ns).Inv := by
  constructor <;> simp [FacadeState.init, Pc.holdsMtx, Pc.cloning]

/-- The invariant looks at the facade, the mutex, the program points and the assertion
mark only. -/
theorem FacadeState.Inv.congr {s s1 : FacadeState} (h : s.Inv)
    (hf : s1.facade = s.facade) (hm : s1.clonerMtx_ = s.clonerMtx_) (hpc : s1.pc = s.pc)
    (ha : s1.assertFailed = false) : s1.Inv := by
  constructor
  · rw [hpc, hm]; exact h.holder
  · rw [hpc, hm, hf]; exact h.flag
  · rw [hpc, hf]; exact h.cloner
  · rw [hpc, hm, hf]; exact h.pending
  · exact ha

/-- The holder of the mutex is one thread: two threads at program points that hold it
are the same. -/
theorem FacadeState.Inv.holder_unique {s : FacadeState} (h : s.Inv) (t u : ThreadId)
    (ht : (s.pc t).holdsMtx = true) (hu : (s.pc u).holdsMtx = true) : t = u := by
  have h1 := h.holder t ht
  have h2 := h.holder u hu
  rw [h1] at h2
  exact Option.some.inj h2

/-- While a thread holds the mutex without cloning, the flag is clear. -/
theorem FacadeState.Inv.flag_clear_of_holder {s : FacadeState} (h : s.Inv) (t : ThreadId)
    (ht : (s.pc t).holdsMtx = true) (hc : (s.pc t).cloning = false) :
    s.facade.hasCopy_ = false := by
  cases hflag : s.facade.hasCopy_ with
  | false => rfl
  | true =>
    obtain ⟨u, hu1, hu2⟩ := h.flag hflag
    have hut : t = u := h.holder_unique t u ht (Pc.holdsMtx_of_cloning _ hu2)
    subst hut
    rw [hc] at hu2
    cases hu2

/-- While a thread holds the mutex at another point than `cloneBuilt`, there is no
pending clone. -/
theorem FacadeState.Inv.no_pending_of_holder {s : FacadeState} (h : s.Inv) (t : ThreadId)
    (ht : (s.pc t).holdsMtx = true) (hb : s.pc t ≠ Pc.cloneBuilt) :
    s.facade.nsCopy_.isSome = false := by
  cases hp : s.facade.nsCopy_.isSome with
  | false => rfl
  | true =>
    obtain ⟨u, hu1, hu2⟩ := h.pending hp
    have hut : t = u := h.holder_unique t u ht (by rw [hu2]; rfl)
    subst hut
    exact absurd hu2 hb

/-- A thread that does not hold the mutex moves to a point that does not hold it. -/
theorem FacadeState.Inv.neutral {s : FacadeState} (h : s.Inv) (t : ThreadId) (q : Pc)
    (hp : (s.pc t).holdsMtx = false) (hq : q.holdsMtx = false) : (s.setPc t q).Inv := by
  have hne : ∀ u, (s.pc u).holdsMtx = true → u ≠ t := by
    intro u hu hut
    subst hut
    rw [hp] at hu
    cases hu
  constructor
  · intro u hu
    simp only [FacadeState.setPc] at hu ⊢
    by_cases hut : u = t
    · rw [if_pos hut, hq] at hu
      cases hu
    · rw [if_neg hut] at hu
      exact h.holder u hu
  · intro hx
    obtain ⟨u, hu1, hu2⟩ := h.flag hx
    refine ⟨u, hu1, ?_⟩
    simp only [FacadeState.setPc]
    rw [if_neg (hne u (Pc.holdsMtx_of_cloning _ hu2))]
    exact hu2
  · intro u hu
    simp only [FacadeState.setPc] at hu ⊢
    by_cases hut : u = t
    · rw [if_pos hut] at hu
      have := Pc.holdsMtx_of_cloning _ hu
      rw [hq] at this
      cases this
    · rw [if_neg hut] at hu
      exact h.cloner u hu
  · intro hx
    obtain ⟨u, hu1, hu2⟩ := h.pending hx
    refine ⟨u, hu1, ?_⟩
    simp only [FacadeState.setPc]
    rw [if_neg (hne u (by rw [hu2]; rfl))]
    exact hu2
  · exact h.noAssert

/-- A thread obtains the free mutex, at a point where no clone is in progress yet. -/
theorem FacadeState.Inv.acquire {s : FacadeState} (h : s.Inv) (t : ThreadId) (q : Pc)
    (hfree : s.clonerMtx_ = none) (hqc : q.cloning = false) :
    ({ s.setPc t q with clonerMtx_ := some t } : FacadeState).Inv := by
  have hnone : ∀ u, (s.pc u).holdsMtx = false := by
    intro u
    cases hu : (s.pc u).holdsMtx with
    | false => rfl
    | true =>
      have := h.holder u hu
      rw [hfree] at this
      cases this
  constructor
  · intro u hu
    simp only [FacadeState.setPc] at hu ⊢
    by_cases hut : u = t
    · rw [hut]
    · rw [if_neg hut, hnone u] at hu
      cases hu
  · intro hx
    obtain ⟨u, hu1, _⟩ := h.flag hx
    rw [hfree] at hu1
    cases hu1
  · intro u hu
    simp only [FacadeState.setPc] at hu ⊢
    by_cases hut : u = t
    · rw [if_pos hut, hqc] at hu
      cases hu
    · rw [if_neg hut] at hu
      exact h.cloner u hu
  · intro hx
    obtain ⟨u, hu1, _⟩ := h.pending hx
    rw [hfree] at hu1
    cases hu1
  · exact h.noAssert

/-- The holder of the mutex, not cloning, releases it. -/
theorem FacadeState.Inv.release {s : FacadeState} (h : s.Inv) (t : ThreadId) (q : Pc)
    (hp : (s.pc t).holdsMtx = true) (hc : (s.pc t).cloning = false)
    (hq : q.holdsMtx = false) :
    ({ s.setPc t q with clonerMtx_ := none } : FacadeState).Inv := by
  have hflag := h.flag_clear_of_holder t hp hc
  have hpend : s.facade.nsCopy_.isSome = false :=
    h.no_pending_of_holder t hp (by intro hb; rw [hb] at hc; cases hc)
  constructor
  · intro u hu
    simp only [FacadeState.setPc] at hu ⊢
    by_cases hut : u = t
    · rw [if_pos hut, hq] at hu
      cases hu
    · rw [if_neg hut] at hu
      exact absurd (h.holder_unique t u hp hu).symm hut
  · intro hx
    simp only [FacadeState.setPc] at hx
    rw [hflag] at hx
    cases hx
  · intro u hu
    simp only [FacadeState.setPc] at hu ⊢
    by_cases hut : u = t
    · rw [if_pos hut] at hu
      have := Pc.holdsMtx_of_cloning _ hu
      rw [hq] at this
      cases this
    · rw [if_neg hut] at hu
      exact h.cloner u hu
  · intro hx
    simp only [FacadeState.setPc] at hx
    rw [hpend] at hx
    cases hx
  · exact h.noAssert

/-- The holder of the mutex moves to another point that holds it and leaves the facade
with the flag set exactly when the new point is a cloning one, and with a pending clone
exactly when the new point is `cloneBuilt`. -/
theorem FacadeState.Inv.holderMove {s : FacadeState} (h : s.Inv) (t : ThreadId) (q : Pc)
    (f : Namespace) (hp : (s.pc t).holdsMtx = true)
    (hflag : f.hasCopy_ = q.cloning) (hpend : f.nsCopy_.isSome = true → q = Pc.cloneBuilt) :
    ({ s.setPc t q with facade := f } : FacadeState).Inv := by
  have hmtx := h.holder t hp
  constructor
  · intro u hu
    simp only [FacadeState.setPc] at hu ⊢
    by_cases hut : u = t
    · rw [hut]; exact hmtx
    · rw [if_neg hut] at hu
      exact h.holder u hu
  · intro hx
    simp only [FacadeState.setPc] at hx ⊢
    refine ⟨t, hmtx, ?_⟩
    rw [if_pos rfl, ← hflag]
    exact hx
  · intro u hu
    simp only [FacadeState.setPc] at hu ⊢
    by_cases hut : u = t
    · rw [if_pos hut] at hu
      rw [hflag]
      exact hu
    · rw [if_neg hut] at hu
      exact absurd (h.holder_unique t u hp (Pc.holdsMtx_of_cloning _ hu)).symm hut
  · intro hx
    simp only [FacadeState.setPc] at hx ⊢
    refine ⟨t, hmtx, ?_⟩
    rw [if_pos rfl]
    exact hpend hx
  · exact h.noAssert

/-- Every step of `awaitMainNs` keeps the invariant. -/
theorem FacadeState.Inv.stepAwait {s s1 : FacadeState} (h : s.Inv) (t : ThreadId)
    (a : Action) (hs : s.stepAwait t a = some s1) : s1.Inv := by
  cases a <;> simp only [FacadeState.stepAwait] at hs <;> (try cases hs)
  case awaitEnter =>
    split_ifs at hs with h1 h2
    · cases hs
      exact h.neutral t _ (by rw [h1]; rfl) rfl
    · cases hs
      exact h.neutral t _ (by rw [h1]; rfl) rfl
  case awaitLoad =>
    split_ifs at hs with h1
    cases hs
    exact (h.neutral t Pc.idle (by rw [h1]; rfl) rfl).congr rfl rfl rfl h.noAssert
  case awaitAcquire =>
    split_ifs at hs with h1
    cases hs
    exact h.acquire t _ h1.2 rfl
  case awaitCanceled e =>
    split_ifs at hs with h1
    cases hs
    exact (h.neutral t Pc.idle (by rw [h1]; rfl) rfl).congr rfl rfl rfl h.noAssert
  case awaitReturn =>
    split_ifs at hs with h1
    cases hs
    have hflag := h.flag_clear_of_holder t (by rw [h1]; rfl) (by rw [h1]; rfl)
    refine (h.release t Pc.idle (by rw [h1]; rfl) (by rw [h1]; rfl) rfl).congr rfl rfl rfl ?_
    show (s.assertFailed || s.facade.hasCopy_) = false
    rw [h.noAssert, hflag]
    rfl

/-- Every step of the clone keeps the invariant. -/
theorem FacadeState.Inv.stepClone {s s1 : FacadeState} (h : s.Inv) (t : ThreadId)
    (a : Action) (hs : s.stepClone t a = some s1) : s1.Inv := by
  cases a <;> simp only [FacadeState.stepClone] at hs <;> (try cases hs)
  case cloneTrigger =>
    split_ifs at hs with h1
    cases hs
    exact h.neutral t _ (by rw [h1]; rfl) rfl
  case cloneAcquire =>
    split_ifs at hs with h1
    cases hs
    exact h.acquire t _ h1.2 rfl
  case cloneCanceled =>
    split_ifs at hs with h1
    cases hs
    exact h.neutral t _ (by rw [h1]; rfl) rfl
  case cloneSkip =>
    split_ifs at hs with h1
    cases hs
    exact h.release t Pc.idle (by rw [h1]; rfl) (by rw [h1]; rfl) rfl
  case cloneBegin =>
    split_ifs at hs with h1
    cases hs
    have hpend := h.no_pending_of_holder t (by rw [h1]; rfl) (by rw [h1]; decide)
    refine h.holderMove t _ _ (by rw [h1]; rfl) rfl ?_
    intro hx
    rw [show ({ s.facade with hasCopy_ := true } : Namespace).nsCopy_ = s.facade.nsCopy_
      from rfl, hpend] at hx
    cases hx
  case cloneBuild copy =>
    split_ifs at hs with h1
    cases hs
    have hflag := h.cloner t (by rw [h1]; rfl)
    exact h.holderMove t _ _ (by rw [h1]; rfl) hflag (fun _ => rfl)
  case clonePublish =>
    split_ifs at hs with h1
    split at hs
    · cases hs
      have hflag := h.cloner t (by rw [h1]; rfl)
      refine h.holderMove t _ _ (by rw [h1]; rfl) hflag ?_
      intro hx
      cases hx
    · cases hs
  case cloneClear =>
    split_ifs at hs with h1
    cases hs
    have hpend := h.no_pending_of_holder t (by rw [h1]; rfl) (by rw [h1]; decide)
    refine h.holderMove t _ _ (by rw [h1]; rfl) rfl ?_
    intro hx
    rw [show ({ s.facade with hasCopy_ := false } : Namespace).nsCopy_ = s.facade.nsCopy_
      from rfl, hpend] at hx
    cases hx
  case cloneUnlock =>
    split_ifs at hs with h1
    cases hs
    exact h.release t Pc.idle (by rw [h1]; rfl) (by rw [h1]; rfl) rfl

/-- Every step keeps the invariant. -/
theorem FacadeState.Inv.step {s s1 : FacadeState} (h : s.Inv) (t : ThreadId) (a : Action)
    (hs : s.step t a = some s1) : s1.Inv := by
  unfold FacadeState.step at hs
  cases hA : s.stepAwait t a with
  | some s2 =>
    rw [hA] at hs
    cases hs
    exact h.stepAwait t a hA
  | none =>
    rw [hA] at hs
    exact h.stepClone t a hs

/-- The invariant holds after every schedule. -/
theorem FacadeState.Inv.run (schedule : List (ThreadId × Action)) :
    ∀ s : FacadeState, s.Inv → (s.run schedule).Inv := by
  induction schedule with
  | nil => intro s h; exact h
  | cons x rest ih =>
    intro s h
    obtain ⟨t, a⟩ := x
    unfold FacadeState.run
    apply ih
    cases hs : s.step t a with
    | none => exact h
    | some s1 => exact h.step t a hs

/-- The invariant holds in every state reached from a fresh facade. -/
theorem FacadeState.Inv_reached (ns : NamespaceImplPtr)
    (schedule : List (ThreadId × Action)) : (FacadeState.reached ns schedule).Inv :=
  FacadeState.Inv.run schedule _ (FacadeState.Inv_init ns)

/-- The steps of `awaitMainNs` in a state that satisfies the invariant. -/
theorem FacadeState.Inv.awaitMainNs {s : FacadeState} (h : s.Inv) (t : ThreadId) :
    (s.pc t = Pc.idle → s.facade.hasCopy_ = false →
      s.step t Action.awaitEnter = some (s.setPc t Pc.awaitLoad)) ∧
    (s.pc t = Pc.awaitLoad →
      ∃ s1, s.step t Action.awaitLoad = some s1 ∧
        s1.result t = some (Except.ok s.facade.ns_) ∧ s1.pc t = Pc.idle ∧
        s1.clonerMtx_ = s.clonerMtx_ ∧ s1.facade = s.facade) ∧
    (s.pc t = Pc.idle → s.facade.hasCopy_ = true →
      s.step t Action.awaitEnter = some (s.setPc t Pc.awaitLock)) ∧
    (∀ s1, s.step t Action.awaitAcquire = some s1 →
      s.pc t = Pc.awaitLock ∧ s.clonerMtx_ = none ∧ s1.clonerMtx_ = some t ∧
        s1.pc t = Pc.awaitLocked) ∧
    (s.pc t = Pc.awaitLock → s.clonerMtx_ = none →
      ∃ s1, s.step t Action.awaitAcquire = some s1) ∧
    (s.pc t = Pc.awaitLocked →
      s.clonerMtx_ = some t ∧ s.facade.hasCopy_ = false ∧
      ∃ s1, s.step t Action.awaitReturn = some s1 ∧
        s1.result t = some (Except.ok s.facade.ns_) ∧ s1.pc t = Pc.idle ∧
        s1.assertFailed = false ∧ s1.clonerMtx_ = none ∧ s1.facade = s.facade) ∧
    s.assertFailed = false := by
  refine ⟨?_, ?_, ?_, ?_, ?_, ?_, h.noAssert⟩
  · intro h1 h2
    simp [FacadeState.step, FacadeState.stepAwait, h1, h2]
  · intro h1
    refine ⟨(s.setPc t Pc.idle).setResult t (Except.ok s.facade.ns_),
      by simp [FacadeState.step, FacadeState.stepAwait, h1], ?_, ?_, rfl, rfl⟩
    · simp [FacadeState.setResult]
    · simp [FacadeState.setResult, FacadeState.setPc]
  · intro h1 h2
    simp [FacadeState.step, FacadeState.stepAwait, h1, h2]
  · intro s1 hs
    simp only [FacadeState.step, FacadeState.stepAwait, FacadeState.stepClone] at hs
    split_ifs at hs with h1
    cases hs
    exact ⟨h1.1, h1.2, rfl, by simp [FacadeState.setPc]⟩
  · intro h1 h2
    exact ⟨{ s.setPc t Pc.awaitLocked with clonerMtx_ := some t },
      by simp [FacadeState.step, FacadeState.stepAwait, h1, h2]⟩
  · intro h1
    have hflag := h.flag_clear_of_holder t (by rw [h1]; rfl) (by rw [h1]; rfl)
    refine ⟨h.holder t (by rw [h1]; rfl), hflag,
      { ((s.setPc t Pc.idle).setResult t (Except.ok s.facade.ns_)) with
        assertFailed := s.assertFailed || s.facade.hasCopy_,
        clonerMtx_ := none },
      by simp [FacadeState.step, FacadeState.stepAwait, h1], ?_, ?_, ?_, rfl, rfl⟩
    · simp [FacadeState.setResult]
    · simp [FacadeState.setResult, FacadeState.setPc]
    · show (s.assertFailed || s.facade.hasCopy_) = false
      rw [h.noAssert, hflag]
      rfl

theorem FacadeState.step_pc_other (s s1 : FacadeState) (u t : ThreadId) (a : Action)
    (hs : s.step u a = some s1) (hne : t ≠ u) : s1.pc t = s.pc t := by
  simp only [FacadeState.step] at hs
  cases hA : s.stepAwait u a with
  | some s2 =>
    rw [hA] at hs
    cases hs
    cases a <;> simp only [FacadeState.stepAwait] at hA <;> (try cases hA) <;>
      split_ifs at hA <;> cases hA <;>
      simp [FacadeState.setPc, FacadeState.setResult, hne]
  | none =>
    rw [hA] at hs
    cases a <;> simp only [FacadeState.stepClone] at hs <;> (try cases hs) <;>
      split_ifs at hs <;> (try split at hs) <;> (try cases hs) <;>
      simp [FacadeState.setPc, FacadeState.setResult, hne]

/-- A thread comes to wait for the mutex in `awaitMainNs` only by its own entry with the
flag set. -/
theorem FacadeState.step_enters_awaitLock (s s1 : FacadeState) (u t : ThreadId)
    (a : Action) (hs : s.step u a = some s1) (h1 : s1.pc t = Pc.awaitLock)
    (h0 : s.pc t ≠ Pc.awaitLock) :
    u = t ∧ a = Action.awaitEnter ∧ s.facade.hasCopy_ = true := by
  by_cases hut : t = u
  · subst hut
    simp only [FacadeState.step] at hs
    cases hA : s.stepAwait t a with
    | some s2 =>
      rw [hA] at hs
      cases hs
      cases a <;> simp only [FacadeState.stepAwait] at hA <;> (try cases hA) <;>
        split_ifs at hA <;> cases hA <;>
        first
          | (simp [FacadeState.setPc, FacadeState.setResult] at h1; done)
          | exact ⟨rfl, rfl, by assumption⟩
    | none =>
      rw [hA] at hs
      cases a <;> simp only [FacadeState.stepClone] at hs <;> (try cases hs) <;>
        split_ifs at hs <;> (try split at hs) <;> (try cases hs) <;>
        simp [FacadeState.setPc, FacadeState.setResult] at h1
  · rw [FacadeState.step_pc_other s s1 u t a hs hut] at h1
    exact absurd h1 h0

/-- C14. In every state that concurrent callers and cloners can reach from a fresh
facade, for every thread `t` that runs `awaitMainNs`: with the flag clear on entry it goes
on to `atomicLoadMainNs()` and returns the implementation published at that moment,
without touching the mutex; with the flag set on entry it waits for the clone-completion
mutex, and a thread comes to wait for it in `awaitMainNs` only so; it obtains the mutex
from that waiting point only, when the mutex is free; once it holds the mutex the
clone-in-progress flag is clear, so the assertion passes, and it returns the
implementation published at that moment and releases the mutex. The assertion has failed
in no reachable state. -/
theorem awaitMainNs_returns_published (ns : NamespaceImplPtr)
    (schedule : List (ThreadId × Action)) (t : ThreadId) :
    let s := FacadeState.reached ns schedule
    (s.pc t = Pc.idle → s.facade.hasCopy_ = false →
      s.step t Action.awaitEnter = some (s.setPc t Pc.awaitLoad)) ∧
    (s.pc t = Pc.awaitLoad →
      ∃ s1, s.step t Action.awaitLoad = some s1 ∧
        s1.result t = some (Except.ok s.facade.ns_) ∧ s1.pc t = Pc.idle ∧
        s1.clonerMtx_ = s.clonerMtx_ ∧ s1.facade = s.facade) ∧
    (s.pc t = Pc.idle → s.facade.hasCopy_ = true →
      s.step t Action.awaitEnter = some (s.setPc t Pc.awaitLock)) ∧
    (∀ u a s1, s.step u a = some s1 → s1.pc t = Pc.awaitLock → s.pc t ≠ Pc.awaitLock →
      u = t ∧ a = Action.awaitEnter ∧ s.facade.hasCopy_ = true) ∧
    (∀ s1, s.step t Action.awaitAcquire = some s1 →
      s.pc t = Pc.awaitLock ∧ s.clonerMtx_ = none ∧ s1.clonerMtx_ = some t ∧
        s1.pc t = Pc.awaitLocked) ∧
    (s.pc t = Pc.awaitLock → s.clonerMtx_ = none →
      ∃ s1, s.step t Action.awaitAcquire = some s1) ∧
    (s.pc t = Pc.awaitLocked →
      s.clonerMtx_ = some t ∧ s.facade.hasCopy_ = false ∧
      ∃ s1, s.step t Action.awaitReturn = some s1 ∧
        s1.result t = some (Except.ok s.facade.ns_) ∧ s1.pc t = Pc.idle ∧
        s1.assertFailed = false ∧ s1.clonerMtx_ = none ∧ s1.facade = s.facade) ∧
    s.assertFailed = false := by
  intro s
  obtain ⟨h1, h2, h3, h4, h5, h6, h7⟩ := (FacadeState.Inv_reached ns schedule).awaitMainNs t
  exact ⟨h1, h2, h3,
    fun u a s1 hs hp h0 => FacadeState.step_enters_awaitLock s s1 u t a hs hp h0,
    h4, h5, h6, h7⟩

/-- The model at work: while thread 1 clones, the flag is set, the clone `7` is pending,
the readers and the second cloner wait; after the publication thread 2 holds the mutex
with the flag clear and returns the new implementation `7`; then thread 3 gets the
mutex. -/
theorem clone_protocol_example :
    ((FacadeState.reached 1 sampleScheduleCloning).facade.hasCopy_ = true ∧
      (FacadeState.reached 1 sampleScheduleCloning).facade.nsCopy_ = some 7 ∧
      (FacadeState.reached 1 sampleScheduleCloning).facade.ns_ = 1 ∧
      (FacadeState.reached 1 sampleScheduleCloning).clonerMtx_ = some 1 ∧
      (FacadeState.reached 1 sampleScheduleCloning).pc 1 = Pc.cloneBuilt ∧
      (FacadeState.reached 1 sampleScheduleCloning).pc 2 = Pc.awaitLock ∧
      (FacadeState.reached 1 sampleScheduleCloning).pc 3 = Pc.cloneLock) ∧
    ((FacadeState.reached 1 sampleScheduleWaiting).facade.hasCopy_ = false ∧
      (FacadeState.reached 1 sampleScheduleWaiting).facade.nsCopy_ = none ∧
      (FacadeState.reached 1 sampleScheduleWaiting).facade.ns_ = 7 ∧
      (FacadeState.reached 1 sampleScheduleWaiting).clonerMtx_ = some 2 ∧
      (FacadeState.reached 1 sampleScheduleWaiting).pc 2 = Pc.awaitLocked) ∧
    ((FacadeState.reached 1 sampleScheduleReturned).result 2 = some (Except.ok 7) ∧
      (FacadeState.reached 1 sampleScheduleReturned).assertFailed = false ∧
      (FacadeState.reached 1 sampleScheduleReturned).clonerMtx_ = some 3 ∧
      (FacadeState.reached 1 sampleScheduleReturned).pc 3 = Pc.cloneLocked) :=
  ⟨⟨rfl, rfl, rfl, rfl, rfl, rfl, rfl⟩, ⟨rfl, rfl, rfl, rfl, rfl⟩, ⟨rfl, rfl, rfl, rfl⟩⟩

/-! ## Properties of `MatchNameFilter` and `NamespaceDef` -/

/-- C21. `MatchNameFilter(nsName)` is true exactly when the name filter is empty or equals
`nsName` ignoring case, and `IsHideSystem()` is false or `nsName` is non-empty with a first
character other than `#`. Hence after `HideSystem(true)` no name beginning with `#` and
no empty name matches, and with default options and no filter every name matches. -/
theorem MatchNameFilter_spec (iequals : String → String → Bool) (o : EnumNamespacesOpts)
    (nsName : String) :
    (o.MatchNameFilter iequals nsName = true ↔
      (o.filter_ = "" ∨ iequals o.filter_ nsName = true) ∧
      (o.IsHideSystem = false ∨ (nsName ≠ "" ∧ nsName.data.head? ≠ some '#'))) ∧
    (∀ rest : List Char,
      (o.HideSystem true).MatchNameFilter iequals (String.mk ('#' :: rest)) = false) ∧
    (o.HideSystem true).MatchNameFilter iequals "" = false ∧
    ({} : EnumNamespacesOpts).MatchNameFilter iequals nsName = true := by
  have hset : (o.HideSystem true).IsHideSystem = true :=
    flag_set_then_test o.options_ 4 true (by simp)
  refine ⟨?_, ?_, ?_, ?_⟩
  · unfold EnumNamespacesOpts.MatchNameFilter
    cases hd : nsName.data with
    | nil =>
      have hn : nsName = "" := by
        cases nsName
        simp_all
      simp [hn]
    | cons c rest =>
      have hn : nsName ≠ "" := by
        intro h
        rw [h] at hd
        cases hd
      simp [hn]
  · intro rest
    simp [EnumNamespacesOpts.MatchNameFilter, hset]
  · simp [EnumNamespacesOpts.MatchNameFilter, hset]
  · have hdef : ({} : EnumNamespacesOpts).IsHideSystem = false := rfl
    simp [EnumNamespacesOpts.MatchNameFilter, hdef]

/-- C29. `HasSchema` is true exactly when `schemaJson` is not empty and is not the
two-character string of an opening and a closing brace; it is false for a
default-constructed `NamespaceDef` and for `NamespaceDef(name)`, and none of the three
`AddIndex` overloads changes `schemaJson` or what `HasSchema` returns. -/
theorem HasSchema_spec (d : NamespaceDef) (iname indexType fieldType : String)
    (jsonPaths : List String) (opts : IndexOpts) (idxDef : IndexDef)
    (istorage : StorageOpts) :
    (d.HasSchema = true ↔ d.schemaJson ≠ "" ∧ d.schemaJson ≠ "\x7b\x7d") ∧
    ("\x7b\x7d".length = 2 ∧ "\x7b\x7d".data = [Char.ofNat 123, Char.ofNat 125]) ∧
    ({} : NamespaceDef).HasSchema = false ∧
    (NamespaceDef.ofName iname istorage).HasSchema = false ∧
    (d.AddIndex iname indexType fieldType opts).HasSchema = d.HasSchema ∧
    (d.AddIndexPaths iname jsonPaths indexType fieldType opts).HasSchema = d.HasSchema ∧
    (d.AddIndexDef idxDef).HasSchema = d.HasSchema ∧
    (d.AddIndex iname indexType fieldType opts).schemaJson = d.schemaJson := by
  refine ⟨?_, ⟨by decide, by decide⟩, by decide, ?_, rfl, rfl, rfl, rfl⟩
  · simp [NamespaceDef.HasSchema]
  · simp [NamespaceDef.HasSchema, NamespaceDef.ofName]

/-! ## Properties of the command dispatcher -/

/-- When no entry of the table matches, the loop runs no handler and returns the
`Unknown command` error. -/
theorem processLoop_no_match {σ : Type} (iequals : String → String → Bool)
    (IsCancelled : σ → Bool) (Reset : σ → σ) (token command : String)
    (cmds : List (commandDefinition σ)) :
    ∀ (i : Nat) (s : σ), (∀ c ∈ cmds, iequals token c.command = false) →
      processLoop iequals IsCancelled Reset token command cmds i s =
        { ret := { code := ErrorCode.errParams, what := unknownCommandMsg token },
          state := s, ran := [] } := by
  induction cmds with
  | nil => intro i s _; rfl
  | cons c rest ih =>
    intro i s h
    have hc := h c (List.mem_cons_self _ _)
    simp only [processLoop, hc]
    exact ih (i + 1) s (fun d hd => h d (List.mem_cons_of_mem _ hd))

/-- The loop skips the entries that do not match. -/
theorem processLoop_skip {σ : Type} (iequals : String → String → Bool)
    (IsCancelled : σ → Bool) (Reset : σ → σ) (token command : String)
    (pre : List (commandDefinition σ)) :
    ∀ (rest : List (commandDefinition σ)) (i : Nat) (s : σ),
      (∀ c ∈ pre, iequals token c.command = false) →
      processLoop iequals IsCancelled Reset token command (pre ++ rest) i s =
        processLoop iequals IsCancelled Reset token command rest (i + pre.length) s := by
  induction pre with
  | nil => intro rest i s _; rfl
  | cons c pre ih =>
    intro rest i s h
    have hc := h c (List.mem_cons_self _ _)
    have hstep : processLoop iequals IsCancelled Reset token command (c :: pre ++ rest) i s =
        processLoop iequals IsCancelled Reset token command (pre ++ rest) (i + 1) s := by
      simp [processLoop, hc]
    rw [hstep, ih rest (i + 1) s (fun d hd => h d (List.mem_cons_of_mem _ hd)),
      List.length_cons]
    congr 1
    omega

/-- The token occurs in the `Unknown command` message. -/
theorem unknownCommandMsg_contains (token : String) :
    containsStr (unknownCommandMsg token) token := by
  unfold containsStr unknownCommandMsg
  simp only [String.data_append]
  refine ⟨("Unknown command " ++ apostrophe).data,
    (apostrophe ++ ". Type " ++ apostrophe ++ "\\help" ++ apostrophe ++
      " to list of available commands").data, ?_⟩
  simp [String.data_append, List.append_assoc]

/-- C26. On a command line whose first token is not empty, does not begin with `--` and
equals no registered command name ignoring case, `processImpl` returns an error of code
`errParams` whose message contains the token, runs no handler, and leaves the state of the
executor, cancellation context included, as it was (no `Reset`). -/
theorem processImpl_unknown_command {σ : Type} (nextToken : String → String)
    (iequals : String → String → Bool) (IsCancelled : σ → Bool) (Reset : σ → σ)
    (cmds_ : List (commandDefinition σ)) (command : String) (s : σ)
    (hnonempty : (nextToken command).length ≠ 0)
    (hnocomment : (nextToken command).data.take 2 ≠ "--".data)
    (hunknown : ∀ c ∈ cmds_, iequals (nextToken command) c.command = false) :
    (processImpl nextToken iequals IsCancelled Reset cmds_ command s).ret.code =
      ErrorCode.errParams ∧
    containsStr (processImpl nextToken iequals IsCancelled Reset cmds_ command s).ret.what
      (nextToken command) ∧
    (processImpl nextToken iequals IsCancelled Reset cmds_ command s).ran = [] ∧
    (processImpl nextToken iequals IsCancelled Reset cmds_ command s).state = s := by
  have h : processImpl nextToken iequals IsCancelled Reset cmds_ command s =
      { ret := { code := ErrorCode.errParams, what := unknownCommandMsg (nextToken command) },
        state := s, ran := [] } := by
    unfold processImpl
    simp only [hnonempty, hnocomment, or_self, if_false]
    exact processLoop_no_match iequals IsCancelled Reset _ command cmds_ 0 s hunknown
  rw [h]
  exact ⟨rfl, unknownCommandMsg_contains _, rfl, rfl⟩

/-- C27. On a command line whose first token is empty or begins with `--`, `processImpl`
returns OK, runs no handler and leaves the state of the executor, cancellation context
included, as it was, whatever the table of commands and the rest of the line are. -/
theorem processImpl_blank_or_comment {σ : Type} (nextToken : String → String)
    (iequals : String → String → Bool) (IsCancelled : σ → Bool) (Reset : σ → σ)
    (cmds_ : List (commandDefinition σ)) (command : String) (s : σ)
    (hblank : (nextToken command).length = 0 ∨ (nextToken command).data.take 2 = "--".data) :
    processImpl nextToken iequals IsCancelled Reset cmds_ command s =
      { ret := Error.ok, state := s, ran := [] } ∧
    (processImpl nextToken iequals IsCancelled Reset cmds_ command s).ret.code =
      ErrorCode.errOK := by
  have h : processImpl nextToken iequals IsCancelled Reset cmds_ command s =
      { ret := Error.ok, state := s, ran := [] } := by
    unfold processImpl
    simp only [hblank, if_true]
  rw [h]
  exact ⟨rfl, rfl⟩

/-- C28. When the first token is neither empty nor a comment mark and the table is
`pre ++ c :: post` where no entry of `pre` matches the token and `c` does, `processImpl`
runs exactly one handler, the one of `c` (position `pre.length`), once, on the whole
command line; it returns `errCanceled` if the cancellation context is canceled when the
handler returns, and what the handler returned otherwise; the state is the one the
handler left, after `Reset`, so that the cancellation context is not canceled
afterwards, `Reset` being what clears it. -/
theorem processImpl_runs_first_match {σ : Type} (nextToken : String → String)
    (iequals : String → String → Bool) (IsCancelled : σ → Bool) (Reset : σ → σ)
    (pre post : List (commandDefinition σ)) (c : commandDefinition σ) (command : String)
    (s : σ)
    (hnonempty : (nextToken command).length ≠ 0)
    (hnocomment : (nextToken command).data.take 2 ≠ "--".data)
    (hpre : ∀ d ∈ pre, iequals (nextToken command) d.command = false)
    (hmatch : iequals (nextToken command) c.command = true)
    (hReset : ∀ x, IsCancelled (Reset x) = false) :
    (processImpl nextToken iequals IsCancelled Reset (pre ++ c :: post) command s).ran =
      [pre.length] ∧
    (processImpl nextToken iequals IsCancelled Reset (pre ++ c :: post) command s).ret =
      (if IsCancelled (c.handler command s).2 = true then
        { code := ErrorCode.errCanceled, what := "Canceled" }
      else (c.handler command s).1) ∧
    (processImpl nextToken iequals IsCancelled Reset (pre ++ c :: post) command s).state =
      Reset (c.handler command s).2 ∧
    IsCancelled
      (processImpl nextToken iequals IsCancelled Reset (pre ++ c :: post) command s).state =
        false := by
  have h : processImpl nextToken iequals IsCancelled Reset (pre ++ c :: post) command s =
      { ret := (if IsCancelled (c.handler command s).2 = true then
          { code := ErrorCode.errCanceled, what := "Canceled" }
          else (c.handler command s).1),
        state := Reset (c.handler command s).2, ran := [pre.length] } := by
    unfold processImpl
    simp only [hnonempty, hnocomment, or_self, if_false]
    rw [processLoop_skip iequals IsCancelled Reset _ command pre (c :: post) 0 s hpre]
    simp only [processLoop, hmatch, if_true, Nat.zero_add]
  rw [h]
  exact ⟨rfl, rfl, rfl, hReset _⟩

/-- Witness of C26: the line `frobnicate 1` with a table that has no such command. -/
theorem processImpl_unknown_command_witness :
    (sampleNextToken "frobnicate 1").length ≠ 0 ∧
    (sampleNextToken "frobnicate 1").data.take 2 ≠ "--".data ∧
    (∀ c ∈ sampleCmds, sampleIequals (sampleNextToken "frobnicate 1") c.command = false) ∧
    (processImpl sampleNextToken sampleIequals (fun s => s.cancelled)
        (fun s => { s with cancelled := false }) sampleCmds "frobnicate 1"
        { cancelled := true, work := 0 }).ret.code = ErrorCode.errParams ∧
    containsStr
      (processImpl sampleNextToken sampleIequals (fun s => s.cancelled)
        (fun s => { s with cancelled := false }) sampleCmds "frobnicate 1"
        { cancelled := true, work := 0 }).ret.what
      (sampleNextToken "frobnicate 1") ∧
    (processImpl sampleNextToken sampleIequals (fun s => s.cancelled)
        (fun s => { s with cancelled := false }) sampleCmds "frobnicate 1"
        { cancelled := true, work := 0 }).ran = [] ∧
    (processImpl sampleNextToken sampleIequals (fun s => s.cancelled)
        (fun s => { s with cancelled := false }) sampleCmds "frobnicate 1"
        { cancelled := true, work := 0 }).state = { cancelled := true, work := 0 } :=
  have hunknown : ∀ c ∈ sampleCmds,
      sampleIequals (sampleNextToken "frobnicate 1") c.command = false := by
    intro c hc
    simp only [sampleCmds, sampleCmdsHead, List.cons_append, List.nil_append,
      List.mem_cons, List.mem_singleton, List.not_mem_nil, or_false] at hc
    rcases hc with rfl | rfl | rfl | rfl <;> decide
  ⟨by decide, by decide, hunknown,
   processImpl_unknown_command sampleNextToken sampleIequals (fun s => s.cancelled)
     (fun s => { s with cancelled := false }) sampleCmds "frobnicate 1"
     { cancelled := true, work := 0 } (by decide) (by decide) hunknown⟩

/-- Witness of C27: a comment line that names the registered command `select`. -/
theorem processImpl_blank_or_comment_witness :
    ((sampleNextToken "--select 1").length = 0 ∨
      (sampleNextToken "--select 1").data.take 2 = "--".data) ∧
    processImpl sampleNextToken sampleIequals (fun s => s.cancelled)
        (fun s => { s with cancelled := false }) sampleCmds "--select 1"
        { cancelled := true, work := 0 } =
      { ret := Error.ok, state := { cancelled := true, work := 0 }, ran := [] } ∧
    (processImpl sampleNextToken sampleIequals (fun s => s.cancelled)
        (fun s => { s with cancelled := false }) sampleCmds "--select 1"
        { cancelled := true, work := 0 }).ret.code = ErrorCode.errOK :=
  ⟨Or.inr (by decide),
   processImpl_blank_or_comment sampleNextToken sampleIequals (fun s => s.cancelled)
     (fun s => { s with cancelled := false }) sampleCmds "--select 1"
     { cancelled := true, work := 0 } (Or.inr (by decide))⟩

/-- Witness of C28: the line `SELECT 1` runs the handler of the fourth entry, which is
canceled while it runs; the result is `errCanceled` and the flag is clear afterwards. -/
theorem processImpl_runs_first_match_witness :
    (sampleNextToken "SELECT 1").length ≠ 0 ∧
    (sampleNextToken "SELECT 1").data.take 2 ≠ "--".data ∧
    sampleIequals (sampleNextToken "SELECT 1") sampleSelect.command = true ∧
    (processImpl sampleNextToken sampleIequals (fun s => s.cancelled)
        (fun s => { s with cancelled := false }) (sampleCmdsHead ++ sampleSelect :: [])
        "SELECT 1" { cancelled := false, work := 0 }).ran = [3] ∧
    (processImpl sampleNextToken sampleIequals (fun s => s.cancelled)
        (fun s => { s with cancelled := false }) (sampleCmdsHead ++ sampleSelect :: [])
        "SELECT 1" { cancelled := false, work := 0 }).ret =
      { code := ErrorCode.errCanceled, what := "Canceled" } ∧
    (processImpl sampleNextToken sampleIequals (fun s => s.cancelled)
        (fun s => { s with cancelled := false }) (sampleCmdsHead ++ sampleSelect :: [])
        "SELECT 1" { cancelled := false, work := 0 }).state =
      { cancelled := false, work := 1000 } :=
  have hpre : ∀ d ∈ sampleCmdsHead,
      sampleIequals (sampleNextToken "SELECT 1") d.command = false := by
    intro d hd
    simp only [sampleCmdsHead, List.mem_cons, List.mem_singleton, List.not_mem_nil,
      or_false] at hd
    rcases hd with rfl | rfl | rfl <;> decide
  have h := processImpl_runs_first_match sampleNextToken sampleIequals (fun s => s.cancelled)
    (fun s => { s with cancelled := false }) sampleCmdsHead [] sampleSelect "SELECT 1"
    { cancelled := false, work := 0 } (by decide) (by decide) hpre (by decide)
    (fun _ => rfl)
  ⟨by decide, by decide, by decide, h.1, h.2.1, h.2.2.1⟩

/-! ## The retry loop has no limit -/

/-- If the wrapper returns with some fuel, an attempt below that fuel is not
invalidated. -/
theorem nsFuncWrapper_some_gives_attempt {ι α : Type} (fn : ImplFn ι α)
    (yield : Sys ι → Sys ι) (this : NamespacePtr) (fuel : Nat) :
    ∀ (w : World ι) (res : Except Error α × World ι),
      nsFuncWrapper fn yield this fuel w = some res →
      ∃ k, k < fuel ∧ isInvalidated (attemptResult fn yield this k w).1 = false := by
  induction fuel with
  | zero => intro w res h; simp [nsFuncWrapper] at h
  | succ f ih =>
    intro w res h
    cases hI : isInvalidated (attempt fn this w).1 with
    | false => exact ⟨0, by omega, hI⟩
    | true =>
      rw [nsFuncWrapper_of_invalidated fn yield this f w hI] at h
      obtain ⟨k, hk, hk2⟩ := ih _ res h
      exact ⟨k + 1, by omega, by rw [attemptResult_succ]; exact hk2⟩

/-- The implementation state when attempt number `i` of `retryFn n` starts. -/
theorem retryFn_attemptWorld (n : Nat) (i : Nat) :
    ∀ w : World Nat, w.sys.impls + i ≤ n →
      (attemptWorld (retryFn n) id 0 i w).sys.impls = w.sys.impls + i := by
  induction i with
  | zero => intro w _; rfl
  | succ i ih =>
    intro w h
    have hlt : w.sys.impls < n := by omega
    simp only [attemptWorld]
    rw [ih]
    · simp [attempt, retryFn, hlt]
      omega
    · simp [attempt, retryFn, hlt]
      omega

/-- The outcome of attempt number `i` of `retryFn n` from the sample world. -/
theorem retryFn_attemptResult (n i : Nat) (h : i ≤ n) :
    (attemptResult (retryFn n) id 0 i sampleWorld).1 =
      if i < n then
        Except.error { code := ErrorCode.errNamespaceInvalidated, what := "invalidated" }
      else Except.ok i := by
  have hw := retryFn_attemptWorld n i sampleWorld (by simp [sampleWorld]; exact h)
  have hw2 : (attemptWorld (retryFn n) id 0 i sampleWorld).sys.impls = i := by
    rw [hw]; simp [sampleWorld]
  have hatt : ∀ w : World Nat, (attempt (retryFn n) 0 w).1 =
      if w.sys.impls < n then
        Except.error { code := ErrorCode.errNamespaceInvalidated, what := "invalidated" }
      else Except.ok w.sys.impls := by
    intro w
    simp only [attempt, retryFn]
    split <;> rfl
  rw [attemptResult, hatt, hw2]

/-- C23. The retry loop has no limit. The wrapper returns with some fuel if and only if
some attempt yields an outcome other than `errNamespaceInvalidated`; when every attempt
is invalidated it returns with no fuel at all; and for every `n` there is a forwarded
method (`retryFn n`, invalidated on its first `n` calls) on which the wrapper does not
return within `n` rounds and returns after exactly `n + 1` attempts. -/
theorem nsFuncWrapper_has_no_retry_limit {ι α : Type} (fn : ImplFn ι α)
    (yield : Sys ι → Sys ι) (this : NamespacePtr) (w : World ι) :
    ((∃ fuel res, nsFuncWrapper fn yield this fuel w = some res) ↔
      ∃ k, isInvalidated (attemptResult fn yield this k w).1 = false) ∧
    ((∀ k, isInvalidated (attemptResult fn yield this k w).1 = true) →
      ∀ fuel, nsFuncWrapper fn yield this fuel w = none) ∧
    (∀ n : Nat,
      (∀ fuel, fuel ≤ n → nsFuncWrapper (retryFn n) id 0 fuel sampleWorld = none) ∧
      ∃ res, nsFuncWrapper (retryFn n) id 0 (n + 1) sampleWorld = some res ∧
        res.1 = Except.ok n ∧ res.2.calls.length = n + 1) := by
  refine ⟨⟨?_, ?_⟩, ?_, ?_⟩
  · rintro ⟨fuel, res, h⟩
    obtain ⟨k, _, hk⟩ := nsFuncWrapper_some_gives_attempt fn yield this fuel w res h
    exact ⟨k, hk⟩
  · rintro ⟨k, hk⟩
    obtain ⟨fuel, res, _, h⟩ := nsFuncWrapper_returns fn yield this k w hk
    exact ⟨fuel, res, h⟩
  · intro hall fuel
    cases h : nsFuncWrapper fn yield this fuel w with
    | none => rfl
    | some res =>
      obtain ⟨k, _, hk⟩ := nsFuncWrapper_some_gives_attempt fn yield this fuel w res h
      rw [hall k] at hk
      cases hk
  · intro n
    constructor
    · intro fuel hfuel
      cases h : nsFuncWrapper (retryFn n) id 0 fuel sampleWorld with
      | none => rfl
      | some res =>
        obtain ⟨k, hk1, hk2⟩ := nsFuncWrapper_some_gives_attempt _ _ _ fuel _ res h
        rw [retryFn_attemptResult n k (by omega), if_pos (by omega)] at hk2
        cases hk2
    · refine ⟨attemptResult (retryFn n) id 0 n sampleWorld, ?_, ?_, ?_⟩
      · apply nsFuncWrapper_run
        · intro i hi
          rw [retryFn_attemptResult n i (by omega), if_pos hi]
          rfl
        · rw [retryFn_attemptResult n n (le_refl _), if_neg (by omega)]
          rfl
        · omega
      · rw [retryFn_attemptResult n n (le_refl _), if_neg (by omega)]
      · rw [attemptResult_calls]
        simp [sampleWorld]

/-! ## More properties of `contexted_cond_var` -/

theorem pollPredEvents_checked (cv : contexted_cond_var) (ctx : WaitContext)
    (env : CondVarEnv) (fuel : Nat) :
    ∀ i, checkedPolling cv._M_chk_timeout
      (contexted_cond_var.pollPredEvents cv ctx env fuel i) = true := by
  induction fuel with
  | zero => intro i; rfl
  | succ f ih =>
    intro i
    unfold contexted_cond_var.pollPredEvents
    cases ThrowOnCancel ctx i condWaitCanceledMsg with
    | error e => rfl
    | ok u =>
      simp only [checkedPolling, decide_True, Bool.true_and]
      split
      · rfl
      · exact ih (i + 1)

theorem pollEvents_checked (cv : contexted_cond_var) (ctx : WaitContext)
    (env : CondVarEnv) (fuel : Nat) :
    ∀ i, checkedPolling cv._M_chk_timeout
      (contexted_cond_var.pollEvents cv ctx env fuel i) = true := by
  induction fuel with
  | zero => intro i; rfl
  | succ f ih =>
    intro i
    unfold contexted_cond_var.pollEvents
    cases ThrowOnCancel ctx i condWaitCanceledMsg with
    | error e => rfl
    | ok u =>
      simp only [checkedPolling, decide_True, Bool.true_and]
      split
      · rfl
      · exact ih (i + 1)

/-- The rounds that `pollPred` counts are the timed waits of its steps. -/
theorem pollPred_rounds (cv : contexted_cond_var) (ctx : WaitContext) (env : CondVarEnv)
    (fuel : Nat) :
    ∀ (i : Nat) (r : Except Error Unit × Nat),
      contexted_cond_var.pollPred ctx env fuel i = some r →
      r.2 = i + timedWaits (contexted_cond_var.pollPredEvents cv ctx env fuel i) := by
  induction fuel with
  | zero => intro i r h; simp [contexted_cond_var.pollPred] at h
  | succ f ih =>
    intro i r h
    unfold contexted_cond_var.pollPred at h
    unfold contexted_cond_var.pollPredEvents
    cases hT : ThrowOnCancel ctx i condWaitCanceledMsg with
    | error e =>
      rw [hT] at h
      cases h
      simp [timedWaits]
    | ok u =>
      rw [hT] at h
      simp only at h
      by_cases hp : env.predAt i = true
      · rw [if_pos hp] at h
        cases h
        simp [timedWaits, hp]
      · rw [if_neg hp] at h
        have := ih (i + 1) r h
        simp only [timedWaits, if_neg hp]
        omega

/-- The rounds that `poll` counts are the timed waits of its steps. -/
theorem poll_rounds (cv : contexted_cond_var) (ctx : WaitContext) (env : CondVarEnv)
    (fuel : Nat) :
    ∀ (i : Nat) (r : Except Error Unit × Nat),
      contexted_cond_var.poll ctx env fuel i = some r →
      r.2 = i + timedWaits (contexted_cond_var.pollEvents cv ctx env fuel i) := by
  induction fuel with
  | zero => intro i r h; simp [contexted_cond_var.poll] at h
  | succ f ih =>
    intro i r h
    unfold contexted_cond_var.poll at h
    unfold contexted_cond_var.pollEvents
    cases hT : ThrowOnCancel ctx i condWaitCanceledMsg with
    | error e =>
      rw [hT] at h
      cases h
      simp [timedWaits]
    | ok u =>
      rw [hT] at h
      simp only at h
      by_cases hp : env.notifiedAt i = true
      · rw [if_pos hp] at h
        cases h
        simp [timedWaits, hp]
      · rw [if_neg hp] at h
        have := ih (i + 1) r h
        simp only [timedWaits, if_neg hp]
        omega

/-- The polling loop with a predicate, when the context becomes canceled at the check
after `j` more rounds in which the predicate did not hold. -/
theorem pollPred_canceled_later (ctx : WaitContext) (env : CondVarEnv) (j : Nat) :
    ∀ (i fuel : Nat),
      (∀ k, i ≤ k → k < i + j → ctx.canceledAt k = false ∧ env.predAt k = false) →
      ctx.canceledAt (i + j) = true → j < fuel →
      contexted_cond_var.pollPred ctx env fuel i =
        some (Except.error { code := ErrorCode.errCanceled, what := condWaitCanceledMsg },
          i + j) := by
  induction j with
  | zero =>
    intro i fuel _ hc hf
    obtain ⟨f, rfl⟩ : ∃ f, fuel = f + 1 := ⟨fuel - 1, by omega⟩
    simp only [Nat.add_zero] at hc ⊢
    simp [contexted_cond_var.pollPred, ThrowOnCancel, hc]
  | succ j ih =>
    intro i fuel hbefore hc hf
    obtain ⟨f, rfl⟩ : ∃ f, fuel = f + 1 := ⟨fuel - 1, by omega⟩
    obtain ⟨h1, h2⟩ := hbefore i (le_refl _) (by omega)
    have hrest := ih (i + 1) f (fun k hk1 hk2 => hbefore k (by omega) (by omega))
      (by rw [show i + 1 + j = i + (j + 1) by omega]; exact hc) (by omega)
    unfold contexted_cond_var.pollPred
    simp only [ThrowOnCancel, h1, h2, Bool.false_eq_true, if_false]
    rw [hrest, show i + 1 + j = i + (j + 1) by omega]

/-- The polling loop without predicate, when the context becomes canceled at the check
after `j` more rounds that all ended by their timeout. -/
theorem poll_canceled_later (ctx : WaitContext) (env : CondVarEnv) (j : Nat) :
    ∀ (i fuel : Nat),
      (∀ k, i ≤ k → k < i + j → ctx.canceledAt k = false ∧ env.notifiedAt k = false) →
      ctx.canceledAt (i + j) = true → j < fuel →
      contexted_cond_var.poll ctx env fuel i =
        some (Except.error { code := ErrorCode.errCanceled, what := condWaitCanceledMsg },
          i + j) := by
  induction j with
  | zero =>
    intro i fuel _ hc hf
    obtain ⟨f, rfl⟩ : ∃ f, fuel = f + 1 := ⟨fuel - 1, by omega⟩
    simp only [Nat.add_zero] at hc ⊢
    simp [contexted_cond_var.poll, ThrowOnCancel, hc]
  | succ j ih =>
    intro i fuel hbefore hc hf
    obtain ⟨f, rfl⟩ : ∃ f, fuel = f + 1 := ⟨fuel - 1, by omega⟩
    obtain ⟨h1, h2⟩ := hbefore i (le_refl _) (by omega)
    have hrest := ih (i + 1) f (fun k hk1 hk2 => hbefore k (by omega) (by omega))
      (by rw [show i + 1 + j = i + (j + 1) by omega]; exact hc) (by omega)
    unfold contexted_cond_var.poll
    simp only [ThrowOnCancel, h1, h2, Bool.false_eq_true, if_false]
    rw [hrest, show i + 1 + j = i + (j + 1) by omega]

/-- C24. In a wait with a positive check timeout and a cancelable context, for both
overloads: the steps taken are cancellation checks and timed waits of the check timeout
in alternation, beginning with a check, so every blocking step is a timed wait of the
check timeout that comes right after a cancellation check, and two consecutive checks are
separated by exactly one timed wait; the rounds counted are these timed waits. If the
context is first seen canceled at the check after `j` rounds, none of which completed the
wait, the wait throws `errCanceled` at that check, after `j` rounds. -/
theorem wait_checks_cancellation_every_round (cv : contexted_cond_var) (ctx : WaitContext)
    (env : CondVarEnv) (fuel : Nat) (htimeout : 0 < cv._M_chk_timeout)
    (hcancelable : ctx.isCancelable = true) :
    checkedPolling cv._M_chk_timeout (cv.waitPredEvents ctx env fuel) = true ∧
    checkedPolling cv._M_chk_timeout (cv.waitEvents ctx env fuel) = true ∧
    (∀ r, cv.waitPred ctx env fuel = some r →
      r.2 = timedWaits (cv.waitPredEvents ctx env fuel)) ∧
    (∀ r, cv.wait ctx env fuel = some r → r.2 = timedWaits (cv.waitEvents ctx env fuel)) ∧
    (∀ j, j < fuel →
      (∀ k, k < j → ctx.canceledAt k = false ∧ env.predAt k = false) →
      ctx.canceledAt j = true →
      cv.waitPred ctx env fuel =
        some (Except.error { code := ErrorCode.errCanceled,
                             what := "Cond wait was canceled on condition" }, j)) ∧
    (∀ j, j < fuel →
      (∀ k, k < j → ctx.canceledAt k = false ∧ env.notifiedAt k = false) →
      ctx.canceledAt j = true →
      cv.wait ctx env fuel =
        some (Except.error { code := ErrorCode.errCanceled,
                             what := "Cond wait was canceled on condition" }, j)) := by
  have hbranch : cv._M_chk_timeout > 0 ∧ ctx.isCancelable = true := ⟨htimeout, hcancelable⟩
  refine ⟨?_, ?_, ?_, ?_, ?_, ?_⟩
  · simp only [contexted_cond_var.waitPredEvents, hbranch, and_self, if_true]
    exact pollPredEvents_checked cv ctx env fuel 0
  · simp only [contexted_cond_var.waitEvents, hbranch, and_self, if_true]
    exact pollEvents_checked cv ctx env fuel 0
  · intro r h
    simp only [contexted_cond_var.waitPred, contexted_cond_var.waitPredEvents, hbranch,
      and_self, if_true] at h ⊢
    have := pollPred_rounds cv ctx env fuel 0 r h
    omega
  · intro r h
    simp only [contexted_cond_var.wait, contexted_cond_var.waitEvents, hbranch,
      and_self, if_true] at h ⊢
    have := poll_rounds cv ctx env fuel 0 r h
    omega
  · intro j hj hbefore hc
    simp only [contexted_cond_var.waitPred, hbranch, and_self, if_true]
    have := pollPred_canceled_later ctx env j 0 fuel
      (fun k _ hk => hbefore k (by omega)) (by rw [Nat.zero_add]; exact hc) hj
    rw [this, Nat.zero_add]
    rfl
  · intro j hj hbefore hc
    simp only [contexted_cond_var.wait, hbranch, and_self, if_true]
    have := poll_canceled_later ctx env j 0 fuel
      (fun k _ hk => hbefore k (by omega)) (by rw [Nat.zero_add]; exact hc) hj
    rw [this, Nat.zero_add]
    rfl

/-- Witness of C24: a check timeout of 50 ms, a context that becomes canceled during the
second round, and nothing else happening: both waits throw at the third check, after two
timed waits of 50 ms. -/
theorem wait_checks_cancellation_every_round_witness :
    (0 < ({ _M_chk_timeout := 50 } : contexted_cond_var)._M_chk_timeout) ∧
    sampleLateCanceledContext.isCancelable = true ∧
    contexted_cond_var.waitPredEvents { _M_chk_timeout := 50 } sampleLateCanceledContext
        silentCondVarEnv 5 =
      [WaitEvent.cancelCheck, WaitEvent.timedWait 50, WaitEvent.cancelCheck,
        WaitEvent.timedWait 50, WaitEvent.cancelCheck] ∧
    contexted_cond_var.waitPred { _M_chk_timeout := 50 } sampleLateCanceledContext
        silentCondVarEnv 5 =
      some (Except.error { code := ErrorCode.errCanceled,
                           what := "Cond wait was canceled on condition" }, 2) ∧
    contexted_cond_var.wait { _M_chk_timeout := 50 } sampleLateCanceledContext
        silentCondVarEnv 5 =
      some (Except.error { code := ErrorCode.errCanceled,
                           what := "Cond wait was canceled on condition" }, 2) :=
  have h := wait_checks_cancellation_every_round { _M_chk_timeout := 50 }
    sampleLateCanceledContext silentCondVarEnv 5 (by decide) rfl
  have hbefore : ∀ k, k < 2 → sampleLateCanceledContext.canceledAt k = false ∧
      silentCondVarEnv.predAt k = false := by
    intro k hk
    interval_cases k <;> exact ⟨rfl, rfl⟩
  ⟨by decide, rfl, rfl, h.2.2.2.2.1 2 (by decide) hbefore rfl,
   h.2.2.2.2.2 2 (by decide) hbefore rfl⟩

/-- When the polling loop with a predicate returns normally, the last value it saw of the
predicate is true, and the values it saw in the rounds before were false. -/
theorem pollPred_ok (ctx : WaitContext) (env : CondVarEnv) (fuel : Nat) :
    ∀ (i n : Nat), contexted_cond_var.pollPred ctx env fuel i = some (Except.ok (), n) →
      ∃ k, i ≤ k ∧ n = k + 1 ∧ env.predAt k = true ∧
        ∀ j, i ≤ j → j < k → env.predAt j = false := by
  induction fuel with
  | zero => intro i n h; simp [contexted_cond_var.pollPred] at h
  | succ f ih =>
    intro i n h
    unfold contexted_cond_var.pollPred at h
    cases hT : ThrowOnCancel ctx i condWaitCanceledMsg with
    | error e =>
      rw [hT] at h
      cases h
    | ok u =>
      rw [hT] at h
      simp only at h
      by_cases hp : env.predAt i = true
      · rw [if_pos hp] at h
        cases h
        exact ⟨i, le_refl _, rfl, hp, fun j h1 h2 => by omega⟩
      · rw [if_neg hp] at h
        obtain ⟨k, hk1, hk2, hk3, hk4⟩ := ih (i + 1) n h
        refine ⟨k, by omega, hk2, hk3, ?_⟩
        intro j h1 h2
        by_cases hji : j = i
        · subst hji
          simpa using hp
        · exact hk4 j (by omega) h2

/-- When the plain wait with a predicate returns, the last value it saw of the predicate
is true, and the values it saw before were false. -/
theorem plainWaitPred_ok (env : CondVarEnv) (fuel : Nat) :
    ∀ (i n : Nat) (o : Except Error Unit),
      contexted_cond_var.plainWaitPred env fuel i = some (o, n) →
      i ≤ n ∧ env.predAt n = true ∧ ∀ j, i ≤ j → j < n → env.predAt j = false := by
  induction fuel with
  | zero => intro i n o h; simp [contexted_cond_var.plainWaitPred] at h
  | succ f ih =>
    intro i n o h
    unfold contexted_cond_var.plainWaitPred at h
    by_cases hp : env.predAt i = true
    · rw [if_pos hp] at h
      cases h
      exact ⟨le_refl _, hp, fun j h1 h2 => by omega⟩
    · rw [if_neg hp] at h
      obtain ⟨hk1, hk3, hk4⟩ := ih (i + 1) n o h
      refine ⟨by omega, hk3, ?_⟩
      intro j h1 h2
      by_cases hji : j = i
      · subst hji
        simpa using hp
      · exact hk4 j (by omega) h2

/-- C25. Whenever the predicate overload of `wait` returns normally, after `n` rounds,
the predicate was true at its last evaluation (number `k`) and false at every evaluation
before it, so no round that ends with the predicate false, a timeout of the polling
interval included, makes the wait return; in the polling branch the last evaluation is
the one returned by the last timed wait (`n = k + 1`), in the plain branch it is the one
made after the last round (`n = k`). -/
theorem waitPred_returns_only_when_predicate_holds (cv : contexted_cond_var)
    (ctx : WaitContext) (env : CondVarEnv) (fuel n : Nat)
    (hreturns : cv.waitPred ctx env fuel = some (Except.ok (), n)) :
    ∃ k, env.predAt k = true ∧ (∀ j, j < k → env.predAt j = false) ∧
      ((cv._M_chk_timeout > 0 ∧ ctx.isCancelable = true) → n = k + 1) ∧
      (¬ (cv._M_chk_timeout > 0 ∧ ctx.isCancelable = true) → n = k) := by
  unfold contexted_cond_var.waitPred at hreturns
  by_cases hb : cv._M_chk_timeout > 0 ∧ ctx.isCancelable = true
  · rw [if_pos hb] at hreturns
    obtain ⟨k, _, hk2, hk3, hk4⟩ := pollPred_ok ctx env fuel 0 n hreturns
    exact ⟨k, hk3, fun j hj => hk4 j (Nat.zero_le _) hj, fun _ => hk2,
      fun h => absurd hb h⟩
  · rw [if_neg hb] at hreturns
    obtain ⟨_, hk3, hk4⟩ := plainWaitPred_ok env fuel 0 n _ hreturns
    exact ⟨n, hk3, fun j hj => hk4 j (Nat.zero_le _) hj, fun h => absurd h hb, fun _ => rfl⟩

/-- Witness of C25: a polling wait whose first two timed waits end with the predicate
false and whose third ends with the predicate true. -/
theorem waitPred_returns_only_when_predicate_holds_witness :
    contexted_cond_var.waitPred { _M_chk_timeout := 50 } sampleLiveContext sampleCondVarEnv
        5 = some (Except.ok (), 3) ∧
    ∃ k, sampleCondVarEnv.predAt k = true ∧ (∀ j, j < k → sampleCondVarEnv.predAt j = false) ∧
      ((({ _M_chk_timeout := 50 } : contexted_cond_var)._M_chk_timeout > 0 ∧
          sampleLiveContext.isCancelable = true) → 3 = k + 1) ∧
      (¬ (({ _M_chk_timeout := 50 } : contexted_cond_var)._M_chk_timeout > 0 ∧
          sampleLiveContext.isCancelable = true) → 3 = k) :=
  ⟨rfl, waitPred_returns_only_when_predicate_holds { _M_chk_timeout := 50 }
    sampleLiveContext sampleCondVarEnv 5 3 rfl⟩


/-! ## Lock discipline of the published pointer -/

/-- Appending steps after a sequence that ends with the spin-lock released: the accesses
of the whole are under the spin-lock exactly when those of both parts are. -/
theorem accessesUnderSpinLock_attempt (held : Bool) (tail : List MemEvent) (rest : List MemEvent) :
    accessesUnderSpinLock held (atomicLoadMainNsEvents ++ MemEvent.callImpl :: tail ++ rest) =
      accessesUnderSpinLock false (tail ++ rest) := by
  cases held <;> simp [atomicLoadMainNsEvents, accessesUnderSpinLock]

theorem nsFuncWrapperEvents_underSpinLock (retries : Nat) (held : Bool) :
    accessesUnderSpinLock held (nsFuncWrapperEvents retries) = true := by
  induction retries generalizing held with
  | zero => cases held <;> simp [nsFuncWrapperEvents, atomicLoadMainNsEvents, accessesUnderSpinLock]
  | succ n ih =>
    have h := accessesUnderSpinLock_attempt held [MemEvent.yield] (nsFuncWrapperEvents n)
    simp only [nsFuncWrapperEvents, List.append_assoc, List.cons_append, List.nil_append] at h ⊢
    rw [h]
    simp [accessesUnderSpinLock, ih]

/-- C22 (counterexample): in `awaitMainNs` with the clone-in-progress flag set, `ns_` is
read while the pointer spin-lock is not held. -/
theorem awaitMainNs_reads_ns_without_spinlock :
    accessesUnderSpinLock false (awaitMainNsEvents true) = false := by
  decide

/-- C22 (amended): every read and every write of `ns_` in `atomicLoadMainNs`,
`atomicStoreMainNs`, `getMainNs`, every attempt of `nsFuncWrapper` and `awaitMainNs` with
the clone-in-progress flag clear happens while the pointer spin-lock is held; in
`awaitMainNs` with the flag set, `ns_` is read while the cloner mutex is held and the
spin-lock is not. -/
theorem ns_accesses_lock_discipline :
    accessesUnderSpinLock false atomicLoadMainNsEvents = true ∧
    accessesUnderSpinLock false atomicStoreMainNsEvents = true ∧
    accessesUnderSpinLock false getMainNsEvents = true ∧
    (∀ retries, accessesUnderSpinLock false (nsFuncWrapperEvents retries) = true) ∧
    accessesUnderSpinLock false (awaitMainNsEvents false) = true ∧
    accessesUnderClonerMtx false (awaitMainNsEvents true) = true ∧
    accessesUnderSpinLock false (awaitMainNsEvents true) = false ∧
    MemEvent.readNs ∈ awaitMainNsEvents true := by
  refine ⟨by decide, by decide, by decide, ?_, by decide, by decide, by decide, by decide⟩
  intro retries
  exact nsFuncWrapperEvents_underSpinLock retries false

/-! ## Ownership of the implementation by the client wrappers -/

/-- C30 (code bug): two wrappers are constructed at the addresses 1 and 2 and the second
is move-assigned to the first. The implementation object 0, allocated by the first
constructor, is then neither deleted nor owned by any wrapper, and it is still not
deleted after both wrappers are destroyed. No implementation object is deleted twice. -/
theorem moveAssign_leaves_impl_without_owner :
    ClientHeap.owners sampleTwoClients 0 = [1] ∧
    0 ∈ sampleMoveAssigned.live ∧ 0 ∉ sampleMoveAssigned.deleted ∧
    ClientHeap.owners sampleMoveAssigned 0 = [] ∧
    ClientHeap.owners sampleMoveAssigned 1 = [1] ∧
    ((sampleMoveAssigned.destroy 1).destroy 2).wrappers = [] ∧
    ((sampleMoveAssigned.destroy 1).destroy 2).live = [0] ∧
    ((sampleMoveAssigned.destroy 1).destroy 2).deleted = [1] := by
  decide

end reindexer
